import Mathlib

/-!
# Neobench core: a shallow embedding with verified properties

This file embeds the core of the neobench load generator (Go) in Lean 4 and
proves properties of the embedding:

* the worker pacing loop (`pkg/neobench/worker.go`, `Worker.RunBenchmark`);
* the query-parameter extraction pass (`pkg/neobench/parser.go`, `parseParams`)
  and the script-level parser (`Parse`, `metaCommand`, `command`);
* the expression evaluator (`Expression.Eval`, `SliceExpr.Eval`, `uniformRand`);
* the result recorder (`WorkerResult.record`, `ResultRecorder`) and the
  cross-worker merge (`output.go`, `Result.Add`);
* the weighted random selector (`workload.go`, `WeightedRandom`);
* local parameter substitution (`pkg/workload/builtin.go`,
  `QueryCommand.Execute` and `varToCypherLiteral`).

Modelling conventions:
* Go `time.Time` / `time.Duration` are modelled as `Int` (a count of the
  relevant unit; the unit in force is stated at each definition).
* Go `int64` is modelled as `Int`.  None of the properties proved here
  depend on wrap-around behaviour at 2^63, and the worker/recorder counters
  could not reach it in a run.
* Go `float64` is modelled as `ℚ` where a numeric value must be carried;
  none of the properties proved here depend on IEEE rounding.
* Go maps are modelled as association lists (`List (String × α)`) with
  insert-or-replace update; statements about maps are made up to key lookup
  so that the (randomised) Go iteration order is never relied upon.
* fallible Go code returns `Except String α`; a Go runtime panic is modelled
  as a distinct outcome (`EvalResult.panic`) so that "returns an error" and
  "crashes" are distinguishable.
-/

namespace Neobench

/-! ## Worker pacing loop

Model of the body of the `for` loop of `Worker.RunBenchmark`
(`pkg/neobench/worker.go` lines 48-95).  Time is an `Int` count of
microseconds.  `clock` is the current wall-clock time (the value `w.now()`
would return), `nextStart` is the local variable of the same name in
`RunBenchmark` (the scheduled start of the next unit of work).

One loop iteration runs the unit of work (which takes `unitDuration` of wall
time), computes `uowLatency := w.now().Sub(nextStart)`, records it, and then
paces:

* `transactionRate > 0`: sleep `transactionRate - uowLatency` when
  `uowLatency < transactionRate`, then `nextStart = nextStart.Add(transactionRate)`;
* otherwise: `nextStart = time.Now()`.
-/

structure PacingState where
  clock : Int
  nextStart : Int
  deriving Repr, DecidableEq

structure IterOutcome where
  /-- the `uowLatency` value handed to `recorder.record` -/
  uowLatency : Int
  /-- how long `w.sleep` was asked to sleep this iteration (0 if not called) -/
  slept : Int
  state : PacingState
  deriving Repr, DecidableEq

/-- One iteration of the `Worker.RunBenchmark` loop, given that executing the
unit of work advanced the wall clock by `unitDuration`. -/
def runIteration (transactionRate : Int) (st : PacingState) (unitDuration : Int) :
    IterOutcome :=
  let now := st.clock + unitDuration
  let uowLatency := now - st.nextStart
  if 0 < transactionRate then
    let slept := if uowLatency < transactionRate then transactionRate - uowLatency else 0
    { uowLatency := uowLatency
      slept := slept
      state := { clock := now + slept, nextStart := st.nextStart + transactionRate } }
  else
    { uowLatency := uowLatency
      slept := 0
      state := { clock := now, nextStart := now } }

/-- The loop run over a whole list of unit-of-work durations,
collecting the recorded latencies in order. -/
def runLoop (transactionRate : Int) (st : PacingState) :
    List Int → List Int × PacingState
  | [] => ([], st)
  | d :: ds =>
    let o := runIteration transactionRate st d
    let (ls, st') := runLoop transactionRate o.state ds
    (o.uowLatency :: ls, st')

theorem runLoop_nil (r : Int) (st : PacingState) : runLoop r st [] = ([], st) := rfl

theorem runLoop_cons (r : Int) (st : PacingState) (d : Int) (ds : List Int) :
    runLoop r st (d :: ds) =
      ((runIteration r st d).uowLatency :: (runLoop r (runIteration r st d).state ds).1,
       (runLoop r (runIteration r st d).state ds).2) := rfl

/-- In latency mode the scheduled start advances by exactly
`transactionRate` per iteration, independent of the durations. -/
theorem runLoop_nextStart_arith (r : Int) (h : 0 < r) :
    ∀ (ds : List Int) (st : PacingState),
      (runLoop r st ds).2.nextStart = st.nextStart + r * ds.length := by
  intro ds
  induction ds with
  | nil => intro st; simp [runLoop]
  | cons d ds ih =>
    intro st
    rw [runLoop_cons]
    simp only [ih, runIteration, if_pos h, List.length_cons]
    push_cast
    ring

/-! ## Runtime values

`Value` models the open `interface{}` runtime values of the Go code: the
evaluator produces `int64`, `float64`, `string`, `bool`, `[]interface{}` and
`map[string]interface{}` values, and a read of an absent key from a Go map of
`interface{}` produces `nil` (modelled by `vNil`).  `float64` is modelled as
`ℚ` (see the header). -/

inductive Value where
  | vInt (i : Int)
  | vFloat (q : ℚ)
  | vStr (s : String)
  | vBool (b : Bool)
  | vList (xs : List Value)
  | vMap (m : List (String × Value))
  | vNil
  deriving Repr

/-- The two-view numeric helper `Number` of `parser.go`. -/
structure Number where
  isDouble : Bool
  val : ℚ
  iVal : Int
  deriving Repr, DecidableEq

/-- `asNumber` (`parser.go`).  The Go `Number` pass-through case cannot arise
here because `Value` has no embedded `Number`. -/
def asNumber : Value → Except String Number
  | .vInt i => .ok { isDouble := false, val := (i : ℚ), iVal := i }
  | .vFloat q => .ok { isDouble := true, val := q, iVal := 0 }
  | _ => .error "expected int64 or float64"

/-! ## Tokenizer

Model of Go `text/scanner` as configured by `newParseContext`
(`parser.go` lines 1096-1105): default mode (idents, numbers, strings,
raw strings, chars, comments skipped), whitespace skipped except newlines
(`s.Whitespace ^= 1 << '\n'`).  Restrictions of the model, none of which a
property below depends on: identifiers are ASCII (Go also allows other
Unicode letters); numeric literals are decimal without exponents. -/

inductive Tok where
  | ident (s : String)
  | intTok (s : String)
  | floatTok (s : String)
  /-- a double-quoted string; `s` includes the quotes, as Go `TokenText` does -/
  | strTok (s : String)
  /-- a back-quoted raw string; `s` includes the back-quotes -/
  | rawTok (s : String)
  /-- a single-quoted char literal, quotes included -/
  | charTok (s : String)
  /-- any other single character (punctuation such as `$`, braces, operators) -/
  | ch (c : Char)
  | newline
  deriving Repr, DecidableEq

def backquote : Char := Char.ofNat 96

def squote : Char := Char.ofNat 39

def isIdentStart (c : Char) : Bool := c.isAlpha || c = '_'

def isIdentCont (c : Char) : Bool := c.isAlpha || c.isDigit || c = '_'

/-- whitespace skipped by the scanner: space, tab, carriage return
(newline was removed from the skip set). -/
def isSkippedSpace (c : Char) : Bool := c = ' ' || c = '\t' || c = '\r'

/-- Consume a quoted literal up to and including the closing `quote`;
a backslash escapes the next character.  Returns (consumed, rest). -/
def scanQuoted (quote : Char) : List Char → List Char × List Char
  | [] => ([], [])
  | c :: rest =>
    if c = quote then ([c], rest)
    else if c = '\\' then
      match rest with
      | [] => ([c], [])
      | d :: rest' =>
        let (t, r) := scanQuoted quote rest'
        (c :: d :: t, r)
    else
      let (t, r) := scanQuoted quote rest
      (c :: t, r)

/-- Consume a raw (back-quoted) literal up to and including the closing
back-quote (no escapes). -/
def scanRaw : List Char → List Char × List Char
  | [] => ([], [])
  | c :: rest =>
    if c = backquote then ([c], rest)
    else
      let (t, r) := scanRaw rest
      (c :: t, r)

/-- Skip a block comment, stopping after the closing asterisk-slash. -/
def skipBlock : List Char → List Char
  | [] => []
  | '*' :: '/' :: rest => rest
  | _ :: rest => skipBlock rest

/-- Scan a numeric literal starting with the digits `c :: _`. -/
def scanNumber (cs : List Char) : Tok × List Char :=
  let (ds, r1) := cs.span Char.isDigit
  match r1 with
  | '.' :: r2 =>
    let (fs, r3) := r2.span Char.isDigit
    (.floatTok (String.mk (ds ++ '.' :: fs)), r3)
  | _ => (.intTok (String.mk ds), r1)

/-- One `Scan` step: skip whitespace (except newline) and comments, then
produce the next token; `none` is end of stream. -/
def scanTok : Nat → List Char → Option (Tok × List Char)
  | 0, _ => none
  | _, [] => none
  | fuel + 1, c :: rest =>
    if isSkippedSpace c then scanTok fuel rest
    else if c = '\n' then some (.newline, rest)
    else if c = '/' then
      match rest with
      | '/' :: r => scanTok fuel (r.dropWhile (· ≠ '\n'))
      | '*' :: r => scanTok fuel (skipBlock r)
      | _ => some (.ch '/', rest)
    else if isIdentStart c then
      let (t, r) := rest.span isIdentCont
      some (.ident (String.mk (c :: t)), r)
    else if c.isDigit then
      some (scanNumber (c :: rest))
    else if c = '"' then
      let (t, r) := scanQuoted '"' rest
      some (.strTok (String.mk ('"' :: t)), r)
    else if c = backquote then
      let (t, r) := scanRaw rest
      some (.rawTok (String.mk (backquote :: t)), r)
    else if c = squote then
      let (t, r) := scanQuoted squote rest
      some (.charTok (String.mk (squote :: t)), r)
    else some (.ch c, rest)

/-- The whole token stream of a string.  The fuel `cs.length + 1` always
suffices because every step of `scanTok` and `tokenListAux` consumes at
least one character. -/
def tokenListAux : Nat → List Char → List Tok
  | 0, _ => []
  | fuel + 1, cs =>
    match scanTok (cs.length + 1) cs with
    | none => []
    | some (t, r) => t :: tokenListAux fuel r

def tokensOf (s : String) : List Tok := tokenListAux (s.length + 1) s.toList

/-! ## Parameter extraction (`parseParams`, `parser.go` lines 105-139)

The Go function drives the scanner directly; here the equivalent loop runs
over the pre-computed token list.  `tryIdent` accepts a plain identifier or
a back-quoted one (stripping the back-quotes, `content[1 : len(content)-1]`).
The Go accumulator is a `map[string]bool`; it is modelled as a
duplicate-free list in first-capture order, and properties are stated up to
set membership so the randomised Go map iteration order is never relied
upon. -/

/-- `content[1 : len(content)-1]` -/
def stripEnds (s : String) : String := String.mk (s.toList.drop 1).dropLast

def addParam (seen : List String) (n : String) : List String :=
  if n ∈ seen then seen else seen ++ [n]

/-- The scan loop of `parseParams`.  Each branch mirrors the Go control
flow: after a successful capture the unconditional `c.Next()` at the bottom
of the loop consumes one further token; the `continue` statements in the
brace branch skip that `c.Next()`. -/
def parseParamsLoop : Nat → List Tok → List String → List String
  | 0, _, seen => seen
  | _, [], seen => seen
  | fuel + 1, .ch '$' :: rest, seen =>
    match rest with
    | .ident n :: rest' => parseParamsLoop fuel (rest'.drop 1) (addParam seen n)
    | .rawTok s :: rest' => parseParamsLoop fuel (rest'.drop 1) (addParam seen (stripEnds s))
    | _ => parseParamsLoop fuel (rest.drop 1) seen
  | fuel + 1, .ch '{' :: rest, seen =>
    match rest with
    | .ident n :: rest' =>
      match rest' with
      | .ch '}' :: rest'' => parseParamsLoop fuel rest'' (addParam seen n)
      | _ => parseParamsLoop fuel rest' seen
    | .rawTok s :: rest' =>
      match rest' with
      | .ch '}' :: rest'' => parseParamsLoop fuel rest'' (addParam seen (stripEnds s))
      | _ => parseParamsLoop fuel rest' seen
    | _ => parseParamsLoop fuel rest seen
  | fuel + 1, _ :: rest, seen => parseParamsLoop fuel rest seen

/-- `parseParams(query, filename)`: the set of parameter names the re-scan
pass extracts from a query text.  The fuel `length + 1` always suffices
because every step consumes at least one token. -/
def parseParams (query : String) : List String :=
  parseParamsLoop ((tokensOf query).length + 1) (tokensOf query) []

/-! ## Expressions and evaluation (`parser.go` lines 391-1078)

A Go runtime panic is a distinct outcome from an error return, so the
evaluator's result type has three constructors. -/

inductive ERes (α : Type) where
  | ok (v : α)
  | err (msg : String)
  | panic (msg : String)
  deriving Repr

def ERes.isOk {α : Type} : ERes α → Bool
  | .ok _ => true
  | _ => false

def ERes.isPanic {α : Type} : ERes α → Bool
  | .panic _ => true
  | _ => false

/-- The expression AST (`ExprKind` and the payload types of `Expression`). -/
inductive Expression where
  | intE (i : Int)
  | floatE (q : ℚ)
  | strE (s : String)
  | mapE (m : List (String × Expression))
  | listE (xs : List Expression)
  | listCompE (itemName : String) (src : Expression) (out : Expression)
  | sliceE (src : Expression) (idx : Expression)
  | callE (name : String) (args : List Expression)
  | varE (name : String)
  deriving Repr

/-- Go map semantics for association lists: insert-or-replace. -/
def insertAssoc {α : Type} (m : List (String × α)) (k : String) (v : α) :
    List (String × α) :=
  if (m.find? (fun p => p.1 == k)).isSome then
    m.map (fun p => if p.1 == k then (k, v) else p)
  else m ++ [(k, v)]

def lookupAssoc {α : Type} (m : List (String × α)) (k : String) : Option α :=
  (m.find? (fun p => p.1 == k)).map (·.2)

/-- Go `int64(f)` for `f : float64`: truncation toward zero. -/
def truncQ (q : ℚ) : Int := if 0 ≤ q then ⌊q⌋ else -⌊-q⌋

/-- The environment-supplied parts of evaluation.  The pseudo-random source
and the transcendental `math` functions are abstracted as oracle functions:
every property proved below holds for every choice of oracle, and no
property below depends on the sequencing of random draws. -/
structure FloatOracle where
  /-- value of `random.Int63n(n)`; the code only reaches the call with `0 < n` -/
  int63n : Int → Int
  /-- the value `1.0 - random.Float64()` used by `ExponentialRand` -/
  uniformDraw : ℚ
  /-- the accepted Box-Muller `stdev` produced by the rejection-sampling loop
  of `gaussianRand`, given the `parameter` argument -/
  gaussianStdev : ℚ → ℚ
  sqrtFn : ℚ → ℚ
  expFn : ℚ → ℚ
  logFn : ℚ → ℚ
  piVal : ℚ
  /-- the CSV loader (`CsvLoader.Load`), keyed by absolute path -/
  csvLoad : String → Except String Value

/-- `ScriptContext` (`workload.go` lines 112-118).  `Stderr` (used only by
`debug(x)`) and the mutable RNG state are not carried; the RNG is the
oracle. -/
structure ScriptContext where
  scriptName : String
  vars : List (String × Value)
  oracle : FloatOracle

/-- `uniformRand` (`parser.go` lines 977-979): `min + random.Int63n(max-min)`.
`rand.Int63n` panics unless its argument is positive. -/
def uniformRand (int63n : Int → Int) (mn mx : Int) : ERes Int :=
  if mx - mn ≤ 0 then .panic "invalid argument to Int63n"
  else .ok (mn + int63n (mx - mn))

/-- `rangeFn` (`parser.go` lines 954-960).  `make([]interface{}, 0, max-min)`
panics when the capacity `max-min` is negative. -/
def rangeFn (mn mx : Int) : ERes Value :=
  if mx - mn < 0 then .panic "runtime error: makeslice: cap out of range"
  else .ok (.vList ((List.range (mx - mn + 1).toNat).map (fun k => Value.vInt (mn + k))))

def minGaussianParam : ℚ := 2

/-- `gaussianRand` (`parser.go` lines 984-1034); the rejection-sampling loop
is abstracted by the `gaussianStdev` oracle. -/
def gaussianRand (o : FloatOracle) (mn mx : Int) (parameter : ℚ) : ERes Int :=
  if parameter < minGaussianParam then
    .err "random_gaussian \x27parameter\x27 argument must be greater than 2.000000"
  else
    let stdev := o.gaussianStdev parameter
    let randVal := (stdev + parameter) / (parameter * 2)
    .ok (mn + truncQ (((mx - mn + 1 : Int) : ℚ) * randVal))

/-- `ExponentialRand` (`parser.go` lines 1037-1055). -/
def exponentialRand (o : FloatOracle) (mn mx : Int) (parameter : ℚ) : ERes Int :=
  if parameter < 0 then .err "parameter argument to random_exponential needs to be > 0"
  else
    let cut := o.expFn (-parameter)
    let uniform := 1 - o.uniformDraw
    if 1 - cut = 0 then
      .err "random_exponential divide by zero error, please pick a different parameter value"
    else
      let randVal := -(o.logFn (cut + (1 - cut) * uniform)) / parameter
      .ok (mn + truncQ (((mx - mn + 1 : Int) : ℚ) * randVal))

/-- `absPath` (`parser.go` lines 1157-1171).  `filepath.Abs` resolution
against the process working directory is simplified to a plain join; the
`builtin:` guard is the source's `panic`. -/
def dirOf (s : String) : String :=
  let parts := (s.toList.reverse.dropWhile (· ≠ '/')).reverse
  match parts with
  | [] => "."
  | ['/'] => "/"
  | ps => String.mk ps.dropLast

def absPathGo (scriptName path : String) : ERes String :=
  if scriptName.startsWith "builtin:" then
    .panic (scriptName ++ " should not be accessing: " ++ path)
  else if path.startsWith "/" then .ok path
  else .ok (dirOf scriptName ++ "/" ++ path)

/-- the running best of the `greatest`/`least` loops: the `isDouble` flag is
updated with the current argument before the comparison, and the comparison
uses the float view once the flag is set. -/
def bestNum (gt : Bool) (first : Number) (restN : List Number) : Number × Bool :=
  restN.foldl
    (fun acc a =>
      let isD := acc.2 || a.isDouble
      let better :=
        if isD then (if gt then a.val > acc.1.val else a.val < acc.1.val)
        else (if gt then a.iVal > acc.1.iVal else a.iVal < acc.1.iVal)
      (if better then a else acc.1, isD))
    (first, first.isDouble)

/-- `randomMatrix` (`parser.go` lines 964-975): one row per count, one
uniform draw per column spec; `uniformRand` panics on an empty or negative
range. -/
def matrixRow (int63n : Int → Int) : List (Int × Int) → ERes (List Value)
  | [] => .ok []
  | (mn, mx) :: spec =>
    match uniformRand int63n mn mx with
    | .ok v =>
      match matrixRow int63n spec with
      | .ok row => .ok (.vInt v :: row)
      | .err m => .err m
      | .panic m => .panic m
    | .err m => .err m
    | .panic m => .panic m

def matrixRows (int63n : Int → Int) (spec : List (Int × Int)) : Nat → ERes (List Value)
  | 0 => .ok []
  | k + 1 =>
    match matrixRow int63n spec with
    | .ok row =>
      match matrixRows int63n spec k with
      | .ok rows => .ok (.vList row :: rows)
      | .err m => .err m
      | .panic m => .panic m
    | .err m => .err m
    | .panic m => .panic m

mutual

/-- `Expression.Eval` (`parser.go` lines 437-478) together with
`SliceExpr.Eval`, `ListCompExpr.Eval` and `CallExpr.Eval`.  Error messages
keep the recognisable Go text but drop the interpolated expression
renderings (`f.String()`); the Go code wraps inner errors with context,
which is likewise dropped. -/
def evalExpr (ctx : ScriptContext) : Expression → ERes Value
  | .intE i => .ok (.vInt i)
  | .floatE q => .ok (.vFloat q)
  | .strE s => .ok (.vStr s)
  | .listE xs =>
    match evalSeq ctx xs with
    | .ok vs => .ok (.vList vs)
    | .err m => .err m
    | .panic m => .panic m
  | .mapE m =>
    match evalPairs ctx m with
    | .ok vs => .ok (.vMap vs)
    | .err m => .err m
    | .panic m => .panic m
  | .listCompE itemName src out =>
    match evalExpr ctx src with
    | .ok (.vList vs) =>
      match evalCompLoop ctx itemName out vs with
      | .ok ws => .ok (.vList ws)
      | .err m => .err m
      | .panic m => .panic m
    | .ok _ => .err "source in list comprehension must be a list"
    | .err m => .err m
    | .panic m => .panic m
  | .sliceE src idx =>
    match evalExpr ctx src with
    | .ok (.vList xs) =>
      match evalExpr ctx idx with
      | .ok iv =>
        match asNumber iv with
        | .error m => .err ("expected integer as slice argument: " ++ m)
        | .ok n =>
          if n.isDouble then .err "floats can\x27t be used as indexes in slices"
          else
            -- the Go code indexes `src[i]` without a bounds check:
            -- an out-of-range index is a runtime panic, not an error return
            match xs.get? n.iVal.toNat with
            | some v => if 0 ≤ n.iVal then .ok v else .panic "runtime error: index out of range"
            | none => .panic "runtime error: index out of range"
      | .err m => .err m
      | .panic m => .panic m
    | .ok _ => .err "slicing only work on lists"
    | .err m => .err m
    | .panic m => .panic m
  | .varE name =>
    match lookupAssoc ctx.vars name with
    | some v => .ok v
    | none => .err ("this variable is not defined: " ++ name)
  | .callE name args => evalCall ctx name args
  termination_by e => (sizeOf e, 0)

/-- sequential evaluation of a list of expressions, first failure aborts
(the `listExpr` case of `Expression.Eval`) -/
def evalSeq (ctx : ScriptContext) : List Expression → ERes (List Value)
  | [] => .ok []
  | e :: es =>
    match evalExpr ctx e with
    | .ok v =>
      match evalSeq ctx es with
      | .ok vs => .ok (v :: vs)
      | .err m => .err m
      | .panic m => .panic m
    | .err m => .err m
    | .panic m => .panic m
  termination_by es => (sizeOf es, 0)

/-- the `mapExpr` case of `Expression.Eval` -/
def evalPairs (ctx : ScriptContext) : List (String × Expression) → ERes (List (String × Value))
  | [] => .ok []
  | (k, e) :: es =>
    match evalExpr ctx e with
    | .ok v =>
      match evalPairs ctx es with
      | .ok vs => .ok ((k, v) :: vs)
      | .err m => .err m
      | .panic m => .panic m
    | .err m => .err m
    | .panic m => .panic m
  termination_by ps => (sizeOf ps, 0)

/-- the per-element loop of `ListCompExpr.Eval`: the child scope is the
parent scope with the bound name overwritten -/
def evalCompLoop (ctx : ScriptContext) (itemName : String) (out : Expression) :
    List Value → ERes (List Value)
  | [] => .ok []
  | v :: vs =>
    match evalExpr { ctx with vars := insertAssoc ctx.vars itemName v } out with
    | .ok w =>
      match evalCompLoop ctx itemName out vs with
      | .ok ws => .ok (w :: ws)
      | .err m => .err m
      | .panic m => .panic m
    | .err m => .err m
    | .panic m => .panic m
  termination_by vs => (sizeOf out, vs.length + 1)

/-- `CallExpr.argAsNumber(i)` -/
def argNum (ctx : ScriptContext) : List Expression → Nat → ERes Number
  | [], i => .err ("expected at least " ++ toString (i + 1) ++ " arguments")
  | a :: _, 0 =>
    match evalExpr ctx a with
    | .ok v =>
      match asNumber v with
      | .ok n => .ok n
      | .error m => .err m
    | .err m => .err m
    | .panic m => .panic m
  | _ :: as, i + 1 => argNum ctx as i
  termination_by args _ => (sizeOf args, 0)

/-- all arguments as `Number`s, in order (the `greatest`/`least` loops) -/
def evalNums (ctx : ScriptContext) : List Expression → ERes (List Number)
  | [] => .ok []
  | a :: as =>
    match evalExpr ctx a with
    | .ok v =>
      match asNumber v with
      | .ok n =>
        match evalNums ctx as with
        | .ok ns => .ok (n :: ns)
        | .err m => .err m
        | .panic m => .panic m
      | .error m => .err m
    | .err m => .err m
    | .panic m => .panic m
  termination_by args => (sizeOf args, 0)

/-- the column-spec arguments of `random_matrix` (`args[1:]`), each required
to be a 2-element list of `int64` -/
def evalSpecs (ctx : ScriptContext) : List Expression → ERes (List (Int × Int))
  | [] => .ok []
  | a :: as =>
    match evalExpr ctx a with
    | .ok (.vList [.vInt mn, .vInt mx]) =>
      match evalSpecs ctx as with
      | .ok sp => .ok ((mn, mx) :: sp)
      | .err m => .err m
      | .panic m => .panic m
    | .ok (.vList [mn, mx]) =>
      match mn, mx with
      | .vInt _, _ => .err "random_matrix column random range should be integers"
      | _, _ => .err "random_matrix column random range should be integers"
    | .ok _ => .err "random_matrix column specs should be 2-integer lists"
    | .err m => .err m
    | .panic m => .panic m
  termination_by args => (sizeOf args, 0)

/-- `CallExpr.Eval` (`parser.go` lines 624-951) -/
def evalCall (ctx : ScriptContext) (name : String) (args : List Expression) : ERes Value :=
  if name = "abs" then
    match argNum ctx args 0 with
    | .ok a =>
      if a.isDouble then .ok (.vFloat |a.val|)
      else .ok (.vInt (if a.iVal < 0 then -1 * a.iVal else a.iVal))
    | .err m => .err m
    | .panic m => .panic m
  else if name = "int" then
    match argNum ctx args 0 with
    | .ok a => if a.isDouble then .ok (.vInt (truncQ a.val)) else .ok (.vInt a.iVal)
    | .err m => .err m
    | .panic m => .panic m
  else if name = "debug" then
    -- the write to Stderr is not modelled; the argument is returned
    match argNum ctx args 0 with
    | .ok a => if a.isDouble then .ok (.vFloat a.val) else .ok (.vInt a.iVal)
    | .err m => .err m
    | .panic m => .panic m
  else if name = "len" then
    match args with
    | [] => .err "len(..) requires an argument"
    | a :: _ =>
      match evalExpr ctx a with
      | .ok (.vList xs) => .ok (.vInt xs.length)
      | .ok _ => .err "argument to len(..) needs to be a list"
      | .err m => .err m
      | .panic m => .panic m
  else if name = "double" then
    match argNum ctx args 0 with
    | .ok a => .ok (.vFloat a.val)
    | .err m => .err m
    | .panic m => .panic m
  else if name = "greatest" then
    if args.isEmpty then .err "greatest(..) requires at least one argument"
    else
      match evalNums ctx args with
      | .ok [] => .err "greatest(..) requires at least one argument"
      | .ok (n :: ns) =>
        let (best, isD) := bestNum true n ns
        if isD then .ok (.vFloat best.val) else .ok (.vInt best.iVal)
      | .err m => .err m
      | .panic m => .panic m
  else if name = "least" then
    if args.isEmpty then .err "least(..) requires at least one argument"
    else
      match evalNums ctx args with
      | .ok [] => .err "least(..) requires at least one argument"
      | .ok (n :: ns) =>
        let (best, isD) := bestNum false n ns
        if isD then .ok (.vFloat best.val) else .ok (.vInt best.iVal)
      | .err m => .err m
      | .panic m => .panic m
  else if name = "pi" then .ok (.vFloat ctx.oracle.piVal)
  else if name = "sqrt" then
    match argNum ctx args 0 with
    | .ok a => .ok (.vFloat (ctx.oracle.sqrtFn a.val))
    | .err m => .err m
    | .panic m => .panic m
  else if name = "random" then
    match argNum ctx args 0 with
    | .ok lb =>
      match argNum ctx args 1 with
      | .ok ub =>
        if lb.isDouble || ub.isDouble then
          .err "interval for random() must be integers, not doubles"
        else if lb.iVal = ub.iVal then .ok (.vInt lb.iVal)
        else
          match uniformRand ctx.oracle.int63n lb.iVal ub.iVal with
          | .ok v => .ok (.vInt v)
          | .err m => .err m
          | .panic m => .panic m
      | .err m => .err m
      | .panic m => .panic m
    | .err m => .err m
    | .panic m => .panic m
  else if name = "random_exponential" then
    match argNum ctx args 0 with
    | .ok lb =>
      match argNum ctx args 1 with
      | .ok ub =>
        match argNum ctx args 2 with
        | .ok param =>
          if lb.isDouble || ub.isDouble then
            .err "interval for random() must be integers, not doubles"
          else if lb.iVal = ub.iVal then .ok (.vInt lb.iVal)
          else
            match exponentialRand ctx.oracle lb.iVal ub.iVal param.val with
            | .ok v => .ok (.vInt v)
            | .err m => .err m
            | .panic m => .panic m
        | .err m => .err m
        | .panic m => .panic m
      | .err m => .err m
      | .panic m => .panic m
    | .err m => .err m
    | .panic m => .panic m
  else if name = "random_gaussian" then
    match argNum ctx args 0 with
    | .ok lb =>
      match argNum ctx args 1 with
      | .ok ub =>
        match argNum ctx args 2 with
        | .ok param =>
          if lb.isDouble || ub.isDouble then
            .err "interval for random() must be integers, not doubles"
          else if lb.iVal = ub.iVal then .ok (.vInt lb.iVal)
          else
            match gaussianRand ctx.oracle lb.iVal ub.iVal param.val with
            | .ok v => .ok (.vInt v)
            | .err m => .err m
            | .panic m => .panic m
        | .err m => .err m
        | .panic m => .panic m
      | .err m => .err m
      | .panic m => .panic m
    | .err m => .err m
    | .panic m => .panic m
  else if name = "range" then
    match argNum ctx args 0 with
    | .ok lb =>
      match argNum ctx args 1 with
      | .ok ub =>
        if lb.isDouble || ub.isDouble then
          .err "interval for range() must be integers, not doubles"
        else rangeFn lb.iVal ub.iVal
      | .err m => .err m
      | .panic m => .panic m
    | .err m => .err m
    | .panic m => .panic m
  else if name = "random_matrix" then
    match argNum ctx args 0 with
    | .ok numRows =>
      -- Go: `if err != nil || numRows.isDouble { return nil, errors.Wrapf(err, ...) }`
      -- with err == nil, errors.Wrapf returns nil: a float row count yields
      -- the value nil with no error
      if numRows.isDouble then .ok .vNil
      else
        match (match args with | [] => ERes.ok [] | _ :: rest => evalSpecs ctx rest) with
        | .ok spec =>
          if numRows.iVal < 0 then .panic "runtime error: makeslice: cap out of range"
          else
            match matrixRows ctx.oracle.int63n spec numRows.iVal.toNat with
            | .ok rows => .ok (.vList rows)
            | .err m => .err m
            | .panic m => .panic m
        | .err m => .err m
        | .panic m => .panic m
    | .err m => .err ("random_matrix numRows must be integer: " ++ m)
    | .panic m => .panic m
  else if name = "csv" then
    match args with
    | [] => .err "csv(..) takes string as argument"
    | a :: _ =>
      match evalExpr ctx a with
      | .ok (.vStr path) =>
        match absPathGo ctx.scriptName path with
        | .ok abs =>
          match ctx.oracle.csvLoad abs with
          | .ok v => .ok v
          | .error m => .err m
        | .err m => .err m
        | .panic m => .panic m
      | .ok _ => .err "csv(..) takes string as argument"
      | .err m => .err m
      | .panic m => .panic m
  else if name = "*" then
    match argNum ctx args 0 with
    | .ok a =>
      match argNum ctx args 1 with
      | .ok b =>
        if a.isDouble || b.isDouble then .ok (.vFloat (a.val * b.val))
        else .ok (.vInt (a.iVal * b.iVal))
      | .err m => .err m
      | .panic m => .panic m
    | .err m => .err m
    | .panic m => .panic m
  else if name = "/" then
    match argNum ctx args 0 with
    | .ok a =>
      match argNum ctx args 1 with
      -- float division; `x / 0` is IEEE ±Inf in Go, `0` in `ℚ` — no property
      -- below evaluates a division by zero
      | .ok b => .ok (.vFloat (a.val / b.val))
      | .err m => .err m
      | .panic m => .panic m
    | .err m => .err m
    | .panic m => .panic m
  else if name = "%" then
    match argNum ctx args 0 with
    | .ok a =>
      match argNum ctx args 1 with
      | .ok b =>
        if a.isDouble then .err "modulo needs both sides to be integers"
        else if b.isDouble then .err "modulo needs both sides to be integers"
        else if b.iVal = 0 then .panic "runtime error: integer divide by zero"
        else .ok (.vInt (Int.tmod a.iVal b.iVal))
      | .err m => .err m
      | .panic m => .panic m
    | .err m => .err m
    | .panic m => .panic m
  else if name = "+" then
    match argNum ctx args 0 with
    | .ok a =>
      match argNum ctx args 1 with
      | .ok b =>
        if a.isDouble || b.isDouble then .ok (.vFloat (a.val + b.val))
        else .ok (.vInt (a.iVal + b.iVal))
      | .err m => .err m
      | .panic m => .panic m
    | .err m => .err m
    | .panic m => .panic m
  else if name = "-" then
    match argNum ctx args 0 with
    | .ok a =>
      match argNum ctx args 1 with
      | .ok b =>
        if a.isDouble || b.isDouble then .ok (.vFloat (a.val - b.val))
        else .ok (.vInt (a.iVal - b.iVal))
      | .err m => .err m
      | .panic m => .panic m
    | .err m => .err m
    | .panic m => .panic m
  else .err ("unknown function: " ++ name)
  termination_by (sizeOf args, 1)

end

/-! ## Commands, scripts and units of work
(`workload.go` lines 102-232 of `pkg/neobench`) -/

inductive Command where
  | setCmd (varName : String) (e : Expression)
  /-- `SleepCommand`; the unit is a count of nanoseconds
  (`time.Second` = 10^9, `time.Millisecond` = 10^6, `time.Microsecond` = 10^3) -/
  | sleepCmd (duration : Expression) (unitNanos : Int)
  /-- `QueryCommand{Query, Params}`: the query text and the parameter names
  the parser extracted from it -/
  | queryCmd (query : String) (params : List String)
  deriving Repr

structure Statement where
  query : String
  params : List (String × Value)
  deriving Repr

structure UnitOfWork where
  scriptName : String
  readonly : Bool
  statements : List Statement
  deriving Repr

structure Script where
  name : String
  readonly : Bool
  weight : ℚ
  commands : List Command
  deriving Repr

/-- a Go map read: the zero value (`nil` for `interface{}`) when absent -/
def goMapGet (vars : List (String × Value)) (n : String) : Value :=
  (lookupAssoc vars n).getD .vNil

/-- `Command.Execute`.  `SetCommand` stores into the shared variable map;
`SleepCommand` checks its argument (the sleep itself is a pure delay);
`QueryCommand` binds exactly the extracted parameter names, reading each
from the variable map Go-style (absent names yield `nil`). -/
def execCommand (ctx : ScriptContext) (uow : UnitOfWork) :
    Command → ERes (ScriptContext × UnitOfWork)
  | .setCmd n e =>
    match evalExpr ctx e with
    | .ok v => .ok ({ ctx with vars := insertAssoc ctx.vars n v }, uow)
    | .err m => .err m
    | .panic m => .panic m
  | .sleepCmd e _ =>
    match evalExpr ctx e with
    | .ok (.vInt _) => .ok (ctx, uow)
    | .ok _ => .err "\\sleep must be given an integer expression"
    | .err m => .err m
    | .panic m => .panic m
  | .queryCmd q ps =>
    let params := ps.foldl (fun m n => insertAssoc m n (goMapGet ctx.vars n)) []
    .ok (ctx, { uow with statements := uow.statements ++ [{ query := q, params := params }] })

inductive ExecOutcome where
  | done
  | failed (msg : String)
  | panicked (msg : String)
  deriving Repr, DecidableEq

/-- `Script.Eval` (`workload.go` lines 121-135): run the commands in order;
on the first error the partially built unit of work is returned alongside
the error. -/
def execCommands (ctx : ScriptContext) (uow : UnitOfWork) :
    List Command → UnitOfWork × ExecOutcome
  | [] => (uow, .done)
  | c :: cs =>
    match execCommand ctx uow c with
    | .ok (ctx', uow') => execCommands ctx' uow' cs
    | .err m => (uow, .failed m)
    | .panic m => (uow, .panicked m)

def evalScript (s : Script) (ctx : ScriptContext) : UnitOfWork × ExecOutcome :=
  execCommands ctx { scriptName := s.name, readonly := s.readonly, statements := [] }
    s.commands

/-! ## The script parser (`parser.go` lines 15-389)

`Parse` dispatches on the first token of each line: a backslash starts a
meta-command, a newline is skipped, anything else starts a query command
read verbatim (with `Whitespace = 0`) until the first `;` or end of input.
Error positions (`file:line:col`) are dropped from the model: every message
below keeps the Go text, without the `(at ...)` suffix.

All parsing functions walk the remaining character list; fuel bounds the
recursion and `input length + 1` always suffices because every step
consumes at least one character. -/

/-- one `Scan` plus end-of-stream as `none` -/
def nextTok (cs : List Char) : Option Tok × List Char :=
  match scanTok (cs.length + 1) cs with
  | none => (none, [])
  | some (t, r) => (some t, r)

def peekTok (cs : List Char) : Option Tok :=
  (scanTok (cs.length + 1) cs).map Prod.fst

def tokText : Tok → String
  | .ident s => s
  | .intTok s => s
  | .floatTok s => s
  | .strTok s => s
  | .rawTok s => s
  | .charTok s => s
  | .ch c => String.mk [c]
  | .newline => "\n"

/-- `tryIdent`: a plain or back-quoted identifier; does not consume on
failure. -/
def tryIdentP (cs : List Char) : Option (String × List Char) :=
  match scanTok (cs.length + 1) cs with
  | some (.rawTok s, r) => some (stripEnds s, r)
  | some (.ident s, r) => some (s, r)
  | _ => none

/-- `ident`: like `tryIdent` but failing the parse. -/
def identP (cs : List Char) : Except String (String × List Char) :=
  match tryIdentP cs with
  | some r => .ok r
  | none => .error "expected identifier"

/-- `expect(c, tok)` -/
def expectP (expected : Char) (cs : List Char) : Except String (List Char) :=
  match nextTok cs with
  | (some (.ch c), r) =>
    if c = expected then .ok r
    else .error ("expected \x27" ++ String.mk [expected] ++ "\x27")
  | _ => .error ("expected \x27" ++ String.mk [expected] ++ "\x27")

/-- digits of a decimal literal (the scanner guarantees the shape) -/
def digitsToNat (ds : List Char) : Nat :=
  ds.foldl (fun n c => n * 10 + (c.toNat - 48)) 0

/-- `strconv.ParseFloat` on the scanner's decimal float text -/
def parseFloatLit (s : String) : ℚ :=
  let (ip, rest) := s.toList.span Char.isDigit
  let fp := match rest with
            | '.' :: fs => fs
            | _ => []
  (digitsToNat ip : ℚ) + (digitsToNat fp : ℚ) / ((10 : ℚ) ^ fp.length)

mutual

/-- `expr` (`parser.go` lines 164-192) -/
def exprP : Nat → List Char → Except String (Expression × List Char)
  | 0, _ => .error "parser fuel exhausted"
  | fuel + 1, cs =>
    match termP fuel cs with
    | .ok (lhs, cs) => exprLoopP fuel lhs cs
    | .error m => .error m

def exprLoopP : Nat → Expression → List Char → Except String (Expression × List Char)
  | 0, _, _ => .error "parser fuel exhausted"
  | fuel + 1, lhs, cs =>
    match peekTok cs with
    | some (.ch '+') =>
      match termP fuel (nextTok cs).2 with
      | .ok (rhs, cs') => exprLoopP fuel (.callE "+" [lhs, rhs]) cs'
      | .error m => .error m
    | some (.ch '-') =>
      match termP fuel (nextTok cs).2 with
      | .ok (rhs, cs') => exprLoopP fuel (.callE "-" [lhs, rhs]) cs'
      | .error m => .error m
    | _ => .ok (lhs, cs)

/-- `term` (`parser.go` lines 194-243); a `[` here forms an index on the
left operand -/
def termP : Nat → List Char → Except String (Expression × List Char)
  | 0, _ => .error "parser fuel exhausted"
  | fuel + 1, cs =>
    match factorP fuel cs with
    | .ok (lhs, cs) => termLoopP fuel lhs cs
    | .error m => .error m

def termLoopP : Nat → Expression → List Char → Except String (Expression × List Char)
  | 0, _, _ => .error "parser fuel exhausted"
  | fuel + 1, lhs, cs =>
    match peekTok cs with
    | some (.ch '*') =>
      match factorP fuel (nextTok cs).2 with
      | .ok (rhs, cs') => termLoopP fuel (.callE "*" [lhs, rhs]) cs'
      | .error m => .error m
    | some (.ch '/') =>
      match factorP fuel (nextTok cs).2 with
      | .ok (rhs, cs') => termLoopP fuel (.callE "/" [lhs, rhs]) cs'
      | .error m => .error m
    | some (.ch '%') =>
      match factorP fuel (nextTok cs).2 with
      | .ok (rhs, cs') => termLoopP fuel (.callE "%" [lhs, rhs]) cs'
      | .error m => .error m
    | some (.ch '[') =>
      match exprP fuel (nextTok cs).2 with
      | .ok (index, cs') =>
        match expectP ']' cs' with
        | .ok cs'' => termLoopP fuel (.sliceE lhs index) cs''
        | .error m => .error m
      | .error m => .error m
    | _ => .ok (lhs, cs)

/-- `factor` (`parser.go` lines 245-360) -/
def factorP : Nat → List Char → Except String (Expression × List Char)
  | 0, _ => .error "parser fuel exhausted"
  | fuel + 1, cs =>
    match nextTok cs with
    | (some (.ident funcName), cs) =>
      match expectP '(' cs with
      | .ok cs =>
        match callArgsP fuel [] cs with
        | .ok (args, cs) => .ok (.callE funcName args, cs)
        | .error m => .error m
      | .error m => .error m
    | (some (.intTok s), cs) => .ok (.intE (digitsToNat s.toList), cs)
    | (some (.floatTok s), cs) => .ok (.floatE (parseFloatLit s), cs)
    | (some (.strTok s), cs) => .ok (.strE (stripEnds s), cs)
    | (some (.ch '('), cs) =>
      match exprP fuel cs with
      | .ok (inner, cs) =>
        match expectP ')' cs with
        | .ok cs => .ok (inner, cs)
        | .error m => .error m
      | .error m => .error m
    | (some (.ch '-'), cs) =>
      match nextTok cs with
      | (some (.intTok s), cs) => .ok (.intE (-1 * (digitsToNat s.toList : Int)), cs)
      | (some (.floatTok s), cs) => .ok (.floatE (-1 * parseFloatLit s), cs)
      | _ => .error "unexpected token, expected integer after minus sign"
    | (some (.ch '$'), cs) =>
      match identP cs with
      | .ok (varName, cs) => .ok (.varE varName, cs)
      | .error m => .error m
    | (some (.ch '['), cs) =>
      -- two-token lookahead to tell lists from comprehensions
      match nextTok cs with
      | (some (.ident _), cs1) =>
        match peekTok cs1 with
        | some (.ident s2) =>
          if s2.toLower = "in" then listCompP fuel cs
          else listItemsP fuel [] cs
        | _ => listItemsP fuel [] cs
      | _ => listItemsP fuel [] cs
    | (some (.ch '{'), cs) => mapItemsP fuel [] cs
    | _ => .error "unexpected token, expected Expression"

/-- the argument loop of the function-call case of `factor` -/
def callArgsP : Nat → List Expression → List Char →
    Except String (List Expression × List Char)
  | 0, _, _ => .error "parser fuel exhausted"
  | fuel + 1, acc, cs =>
    match peekTok cs with
    | some (.ch ')') => .ok (acc, (nextTok cs).2)
    | _ =>
      match (if acc.isEmpty then .ok cs else expectP ',' cs) with
      | .ok cs =>
        match exprP fuel cs with
        | .ok (e, cs) => callArgsP fuel (acc ++ [e]) cs
        | .error m => .error m
      | .error m => .error m

/-- the literal-list loop of `factor`; entered on the character list
positioned after the opening `[` -/
def listItemsP : Nat → List Expression → List Char →
    Except String (Expression × List Char)
  | 0, _, _ => .error "parser fuel exhausted"
  | fuel + 1, acc, cs =>
    match peekTok cs with
    | some (.ch ']') => .ok (.listE acc, (nextTok cs).2)
    | _ =>
      match (if acc.isEmpty then .ok cs else expectP ',' cs) with
      | .ok cs =>
        match exprP fuel cs with
        | .ok (e, cs) => listItemsP fuel (acc ++ [e]) cs
        | .error m => .error m
      | .error m => .error m

/-- `listComprehension` (`parser.go` lines 362-382); entered on the
character list positioned after the opening `[` -/
def listCompP : Nat → List Char → Except String (Expression × List Char)
  | 0, _ => .error "parser fuel exhausted"
  | fuel + 1, cs =>
    match identP cs with
    | .ok (itemName, cs) =>
      match identP cs with
      | .ok (maybeIn, cs) =>
        if maybeIn.toLower ≠ "in" then .error "did you mean to add a comma"
        else
          match exprP fuel cs with
          | .ok (src, cs) =>
            match expectP '|' cs with
            | .ok cs =>
              match exprP fuel cs with
              | .ok (out, cs) =>
                match expectP ']' cs with
                | .ok cs => .ok (.listCompE itemName src out, cs)
                | .error m => .error m
              | .error m => .error m
            | .error m => .error m
          | .error m => .error m
      | .error m => .error m
    | .error m => .error m

/-- the key-value loop of the map case of `factor` -/
def mapItemsP : Nat → List (String × Expression) → List Char →
    Except String (Expression × List Char)
  | 0, _, _ => .error "parser fuel exhausted"
  | fuel + 1, acc, cs =>
    match peekTok cs with
    | some (.ch '}') => .ok (.mapE acc, (nextTok cs).2)
    | _ =>
      match (if acc.isEmpty then .ok cs else expectP ',' cs) with
      | .ok cs =>
        match identP cs with
        | .ok (key, cs) =>
          match expectP ':' cs with
          | .ok cs =>
            match exprP fuel cs with
            | .ok (value, cs) => mapItemsP fuel (acc ++ [(key, value)]) cs
            | .error m => .error m
          | .error m => .error m
        | .error m => .error m
      | .error m => .error m

end

/-- `metaCommand` (`parser.go` lines 45-85), entered after the backslash has
been consumed.  Exactly two command names are accepted, `set` and `sleep`;
everything else fails with `unexpected meta command`.  The sleep unit
defaults to seconds; the unit token, if present and not `us`/`ms`/`s`, is a
parse error. -/
def metaP (fuel : Nat) (cs : List Char) : Except String (Command × List Char) :=
  match identP cs with
  | .error m => .error m
  | .ok (cmd, cs) =>
    if cmd = "set" then
      match identP cs with
      | .error m => .error m
      | .ok (varName, cs) =>
        match exprP fuel cs with
        | .error m => .error m
        | .ok (e, cs) => .ok (.setCmd varName e, cs)
    else if cmd = "sleep" then
      match exprP fuel cs with
      | .error m => .error m
      | .ok (e, cs) =>
        match peekTok cs with
        | none => .ok (.sleepCmd e 1000000000, cs)
        | some .newline => .ok (.sleepCmd e 1000000000, cs)
        | some _ =>
          match nextTok cs with
          | (some tk, cs') =>
            let unitStr := tokText tk
            if unitStr = "s" then .ok (.sleepCmd e 1000000000, cs')
            else if unitStr = "ms" then .ok (.sleepCmd e 1000000, cs')
            else if unitStr = "us" then .ok (.sleepCmd e 1000, cs')
            else
              .error ("\\sleep command must use \x27us\x27, \x27ms\x27, or \x27s\x27 unit argument - or none. got: "
                ++ unitStr)
          | (none, _) => .error "\\sleep command must use \x27us\x27, \x27ms\x27, or \x27s\x27 unit argument - or none."
    else .error ("unexpected meta command: \x27" ++ cmd ++ "\x27")

/-- The whitespace/comment skipping that the main loop's `PeekToken`
performs before the first token of a query command. -/
def skipLeading : Nat → List Char → List Char
  | 0, cs => cs
  | _, [] => []
  | fuel + 1, c :: rest =>
    if isSkippedSpace c then skipLeading fuel rest
    else if c = '/' then
      match rest with
      | '/' :: r => skipLeading fuel (r.dropWhile (· ≠ '\n'))
      | '*' :: r => skipLeading fuel (skipBlock r)
      | _ => c :: rest
    else c :: rest

/-- `command` (`parser.go` lines 87-102): with `Whitespace = 0` every rune
reaches the consumer, so concatenating token texts reproduces the input
verbatim — except comments, which the scanner still skips — until the first
top-level `;` (or end of input), which is consumed but not kept. -/
def readQuery : Nat → List Char → List Char × List Char
  | 0, cs => ([], cs)
  | _, [] => ([], [])
  | fuel + 1, c :: rest =>
    if c = ';' then ([], rest)
    else if c = '/' then
      match rest with
      | '/' :: r => readQuery fuel (r.dropWhile (· ≠ '\n'))
      | '*' :: r => readQuery fuel (skipBlock r)
      | _ =>
        let (t, r) := readQuery fuel rest
        ('/' :: t, r)
    else if c = '"' then
      let (lit, r1) := scanQuoted '"' rest
      let (t, r) := readQuery fuel r1
      ('"' :: lit ++ t, r)
    else if c = backquote then
      let (lit, r1) := scanRaw rest
      let (t, r) := readQuery fuel r1
      (backquote :: lit ++ t, r)
    else if c = squote then
      let (lit, r1) := scanQuoted squote rest
      let (t, r) := readQuery fuel r1
      (squote :: lit ++ t, r)
    else
      let (t, r) := readQuery fuel rest
      (c :: t, r)

/-- The top-level loop of `Parse` (`parser.go` lines 15-43): a backslash
starts a meta-command, newlines are skipped, anything else starts a query
command; the query's parameter list is `parseParams` of its text. -/
def parseLoopP : Nat → List Char → List Command → Except String (List Command)
  | 0, _, _ => .error "parser fuel exhausted"
  | fuel + 1, cs, acc =>
    match scanTok (cs.length + 1) cs with
    | none => .ok acc
    | some (.newline, r) => parseLoopP fuel r acc
    | some (.ch '\\', r) =>
      match metaP fuel r with
      | .ok (cmd, r') => parseLoopP fuel r' (acc ++ [cmd])
      | .error m => .error m
    | some _ =>
      let cs' := skipLeading (cs.length + 1) cs
      let (text, r) := readQuery (cs'.length + 1) cs'
      let q := String.mk text
      parseLoopP fuel r (acc ++ [.queryCmd q (parseParams q)])

/-- `Parse(filename, script, weight)` (`parser.go` lines 15-43). -/
def goParse (filename script : String) (weight : ℚ) : Except String Script :=
  match parseLoopP (script.length + 1) script.toList [] with
  | .ok cmds => .ok { name := filename, readonly := false, weight := weight, commands := cmds }
  | .error m => .error m

/-! ## Results and the recorder (`worker.go` lines 177-336, `output.go` lines 18-101)

The HDR histogram is modelled as the list of values it has recorded, in
recording order; `TotalCount` is its length, and merging concatenates.
Statements compare histograms as multisets ("equal up to HDR precision":
the histogram quantises each value once, at recording time, so merging is
exact on the recorded counts).  `RecordValue` fails outside the trackable
range `0 .. 60*60*1000000` (the bounds `hdrhistogram.New` is given). -/

structure Histogram where
  values : List Int
  deriving Repr, DecidableEq

def hdrHighestTrackable : Int := 60 * 60 * 1000000

def Histogram.totalCount (h : Histogram) : Int := h.values.length

def Histogram.recordValue (h : Histogram) (v : Int) : Except String Histogram :=
  if v < 0 || hdrHighestTrackable < v then .error "value out of histogram range"
  else .ok { values := h.values ++ [v] }

structure ScriptResult where
  scriptName : String
  /-- scripts executed per second, succeeded and failed together -/
  rate : ℚ
  failed : Int
  succeeded : Int
  latencies : Histogram
  deriving Repr, DecidableEq

structure FailureGroup where
  count : Int
  /-- the first error observed for the group (its message) -/
  firstFailure : String
  deriving Repr, DecidableEq

/-- `uowOutcome` -/
structure UowOutcome where
  succeeded : Bool
  failureGroup : String
  err : String
  deriving Repr, DecidableEq

structure WorkerResult where
  workerId : Int
  scripts : List (String × ScriptResult)
  failedByErrorGroup : List (String × FailureGroup)
  deriving Repr, DecidableEq

def newWorkerResult (workerId : Int) : WorkerResult :=
  { workerId := workerId, scripts := [], failedByErrorGroup := [] }

def emptyScriptResult (scriptName : String) : ScriptResult :=
  { scriptName := scriptName, rate := 0, failed := 0, succeeded := 0, latencies := { values := [] } }

/-- `WorkerResult.record` (`worker.go` lines 276-307).  `latency` is a count
of nanoseconds; the histogram records `latency.Microseconds()` (truncating
division by 1000).  A success increments `Succeeded` and records the
latency; a failure increments `Failed` and the failure group, and never
touches the histogram.  A histogram range error aborts (the worker treats
it as fatal). -/
def WorkerResult.record (r : WorkerResult) (scriptName : String) (latency : Int)
    (outcome : UowOutcome) : Except String WorkerResult :=
  let stats := (lookupAssoc r.scripts scriptName).getD (emptyScriptResult scriptName)
  if outcome.succeeded then
    match stats.latencies.recordValue (latency.tdiv 1000) with
    | .ok h =>
      let stats' := { stats with succeeded := stats.succeeded + 1, latencies := h }
      .ok { r with scripts := insertAssoc r.scripts scriptName stats' }
    | .error m => .error ("failed to record latency: " ++ m)
  else
    let groups :=
      match lookupAssoc r.failedByErrorGroup outcome.failureGroup with
      | none => insertAssoc r.failedByErrorGroup outcome.failureGroup
          { count := 1, firstFailure := outcome.err }
      | some g => insertAssoc r.failedByErrorGroup outcome.failureGroup
          { count := g.count + 1, firstFailure := g.firstFailure }
    .ok { r with
          scripts := insertAssoc r.scripts scriptName { stats with failed := stats.failed + 1 }
          failedByErrorGroup := groups }

/-- `WorkerResult.calculateRate` (`worker.go` lines 311-315); `deltaNanos`
is the workload duration in nanoseconds (the Go code converts it to
microseconds before dividing). -/
def WorkerResult.calculateRate (r : WorkerResult) (deltaNanos : Int) : WorkerResult :=
  { r with scripts := r.scripts.map (fun p =>
      (p.1, { p.2 with rate :=
        ((p.2.succeeded + p.2.failed : ℚ) / ((deltaNanos.tdiv 1000 : Int) : ℚ)) * 1000 * 1000 })) }

/-- `groupError` (`worker.go` lines 323-329). -/
def groupError (msg : String) : String :=
  if msg.startsWith "Server error: [" then
    let after := (msg.toList.dropWhile (· ≠ '[')).drop 1
    String.mk (after.takeWhile (· ≠ ']'))
  else "unknown"

/-! ### ResultRecorder (`worker.go` lines 177-239)

In the source every operation below runs under the recorder's single mutex,
so any concurrent execution is equivalent to some serial interleaving of
the operations; the model is that serialisation.  Timestamps are counts of
nanoseconds. -/

structure ResultRecorder where
  current : WorkerResult
  currentStart : Int
  total : WorkerResult
  totalStart : Int
  deriving Repr, DecidableEq

def newResultRecorder (workerId : Int) (start : Int) : ResultRecorder :=
  { current := newWorkerResult workerId, currentStart := start
    total := newWorkerResult workerId, totalStart := start }

/-- `ResultRecorder.record`: updates `current` and `total` in one critical
section. -/
def ResultRecorder.record (t : ResultRecorder) (name : String) (latency : Int)
    (o : UowOutcome) : Except String ResultRecorder :=
  match t.current.record name latency o with
  | .error m => .error m
  | .ok cur =>
    match t.total.record name latency o with
    | .error m => .error m
    | .ok tot => .ok { t with current := cur, total := tot }

/-- `ResultRecorder.ProgressReport`: snapshot `current` with rates
computed over the elapsed time, then reset it. -/
def ResultRecorder.progressReport (t : ResultRecorder) (now : Int) :
    WorkerResult × ResultRecorder :=
  (t.current.calculateRate (now - t.currentStart),
   { t with current := newWorkerResult t.current.workerId, currentStart := now })

/-- `ResultRecorder.Complete`: the same on `total`. -/
def ResultRecorder.complete (t : ResultRecorder) (now : Int) :
    WorkerResult × ResultRecorder :=
  (t.total.calculateRate (now - t.totalStart),
   { t with total := newWorkerResult t.total.workerId, totalStart := now })

/-- One recorded sample: the arguments of one `record` call. -/
structure Sample where
  name : String
  latency : Int
  outcome : UowOutcome
  deriving Repr, DecidableEq

/-- A serial interleaving of recorder operations. -/
inductive RecOp where
  | sample (s : Sample)
  | progress (now : Int)
  deriving Repr, DecidableEq

/-- Fold a sample list into a bare `WorkerResult` (the reference
accumulation C4 compares against). -/
def foldSamples (r : WorkerResult) : List Sample → Except String WorkerResult
  | [] => .ok r
  | s :: ss =>
    match r.record s.name s.latency s.outcome with
    | .ok r' => foldSamples r' ss
    | .error m => .error m

/-- Run an interleaving against a recorder, collecting progress snapshots. -/
def runRecOps (t : ResultRecorder) : List RecOp → Except String (ResultRecorder × List WorkerResult)
  | [] => .ok (t, [])
  | .sample s :: ops =>
    match t.record s.name s.latency s.outcome with
    | .ok t' => runRecOps t' ops
    | .error m => .error m
  | .progress now :: ops =>
    let (snap, t') := t.progressReport now
    match runRecOps t' ops with
    | .ok (t'', snaps) => .ok (t'', snap :: snaps)
    | .error m => .error m

def samplesOf (ops : List RecOp) : List Sample :=
  ops.filterMap (fun op => match op with | .sample s => some s | _ => none)

/-! ### The aggregate `Result` and cross-worker merge (`output.go`) -/

structure Result where
  databaseName : String
  scenario : String
  failedByErrorGroup : List (String × FailureGroup)
  scripts : List (String × ScriptResult)
  deriving Repr, DecidableEq

def newResult (databaseName scenario : String) : Result :=
  { databaseName := databaseName, scenario := scenario
    failedByErrorGroup := [], scripts := [] }

/-- the per-script step of `Result.Add` (`output.go` lines 60-76): absent
scripts are imported (a histogram copy), present ones have `Rate`,
`Succeeded`, `Failed` summed and histograms merged. -/
def mergeScript (scripts : List (String × ScriptResult)) (w : ScriptResult) :
    List (String × ScriptResult) :=
  match lookupAssoc scripts w.scriptName with
  | none =>
    insertAssoc scripts w.scriptName
      { scriptName := w.scriptName, latencies := w.latencies
        rate := w.rate, succeeded := w.succeeded, failed := w.failed }
  | some c =>
    insertAssoc scripts w.scriptName
      { c with rate := c.rate + w.rate, succeeded := c.succeeded + w.succeeded
               failed := c.failed + w.failed
               latencies := { values := c.latencies.values ++ w.latencies.values } }

/-- the failure-group step of `Result.Add` (`output.go` lines 77-87):
counts are summed, the already-present `FirstFailure` is kept. -/
def mergeGroup (groups : List (String × FailureGroup)) (p : String × FailureGroup) :
    List (String × FailureGroup) :=
  match lookupAssoc groups p.1 with
  | some existing =>
    insertAssoc groups p.1 { count := existing.count + p.2.count
                             firstFailure := existing.firstFailure }
  | none => insertAssoc groups p.1 p.2

/-- `Result.Add` (`output.go` lines 59-88).  The Go code iterates the two
maps of `res` in (randomised) map order; since distinct keys touch disjoint
slots, any order yields the same map, and the model fixes list order. -/
def Result.add (r : Result) (res : WorkerResult) : Result :=
  { r with
    scripts := (res.scripts.map Prod.snd).foldl mergeScript r.scripts
    failedByErrorGroup := res.failedByErrorGroup.foldl mergeGroup r.failedByErrorGroup }

/-- merging a sequence of worker results, in sequence order -/
def mergeAll (base : Result) (ws : List WorkerResult) : Result :=
  ws.foldl Result.add base

/-! ## Weighted random selector (`workload.go` lines 36-100)

`Draw` picks `point := r.Intn(totalWeight) + 1`, a value in
`[1, totalWeight]` (`Intn` panics when `totalWeight ≤ 0`, the "empty
selector is a programming error" case); here the drawn point is an explicit
argument.  `sort.SearchInts(a, x)` is `sort.Search(len(a), func(i) {return
a[i] >= x})`, whose loop is modelled verbatim by `goSearchLoop`. -/

structure WeightedRandom (α : Type) where
  lookupTable : List Int
  totalWeight : Int
  entries : List α
  deriving Repr

def WeightedRandom.empty {α : Type} : WeightedRandom α :=
  { lookupTable := [], totalWeight := 0, entries := [] }

/-- `WeightedRandom.Add` -/
def WeightedRandom.add {α : Type} (w : WeightedRandom α) (entry : α) (weight : Int) :
    WeightedRandom α :=
  { lookupTable := w.lookupTable ++ [w.totalWeight + weight]
    entries := w.entries ++ [entry]
    totalWeight := w.totalWeight + weight }

/-- a selector built by `Add`-ing each entry with its weight, in order
(as `NewScripts` does, with `weight = int(script.Weight * 10000)`) -/
def buildWR {α : Type} (items : List (α × Int)) : WeightedRandom α :=
  items.foldl (fun w p => w.add p.1 p.2) .empty

/-- the loop of `sort.Search`:
`i, j := 0, n; for i < j { h := (i+j)/2; if !f(h) {i = h+1} else {j = h} }; return i` -/
def goSearchLoop (pred : Nat → Bool) (i j : Nat) : Nat :=
  if _h : i < j then
    let m := (i + j) / 2
    if pred m then goSearchLoop pred i m else goSearchLoop pred (m + 1) j
  else i
  termination_by j - i
  decreasing_by all_goals omega

/-- `sort.SearchInts(a, x)`: the smallest index at which `a[i] >= x`
(indices probed by the loop are always `< a.length`). -/
def searchInts (a : List Int) (x : Int) : Nat :=
  goSearchLoop (fun i => decide (x ≤ a.getD i 0)) 0 a.length

/-- `WeightedRandom.Draw`, with the random point made explicit.  The Go
code indexes `w.entries[index]` directly; `none` here corresponds to the
index-out-of-range panic that the bounds theorem rules out. -/
def WeightedRandom.draw {α : Type} (w : WeightedRandom α) (point : Int) : Option α :=
  w.entries.get? (searchInts w.lookupTable point)

/-! ## Local parameter substitution (`pkg/workload/builtin.go` lines 281-343)

This is the `QueryCommand` of the `workload` generation of the code: a
query carries the remote parameter names (sent as driver parameters) and
the local parameter names (substituted into the text as Cypher literals
before sending). -/

structure BQueryCommand where
  query : String
  remoteParams : List String
  localParams : List String
  deriving Repr

structure BStatement where
  query : String
  params : List (String × Value)
  deriving Repr

/-- Go `fmt.Sprintf("%f", v)`: six fractional digits.  The model rounds
half away from zero where Go rounds to nearest even — no property below
renders a float. -/
def floatLit (q : ℚ) : String :=
  let a := |q|
  let scaled := ⌊a * 1000000 + 1 / 2⌋
  let ip := scaled / 1000000
  let fp := scaled % 1000000
  let fps := toString fp
  let pad := String.mk (List.replicate (6 - fps.length) '0')
  (if q < 0 then "-" else "") ++ toString ip ++ "." ++ pad ++ fps

mutual

/-- `varToCypherLiteral` (`builtin.go` lines 311-343): int as decimal,
float via `%f`, bool as `true`/`false`, string double-quoted with no
escaping (the `TODO escaping` in the source), list bracketed and
comma-separated; anything else — including a map, and the `nil` read of an
undefined variable — hits the `default` case and errors. -/
def varToCypherLiteral : Value → Except String String
  | .vInt i => .ok (toString i)
  | .vFloat q => .ok (floatLit q)
  | .vBool b => .ok (if b then "true" else "false")
  | .vStr s => .ok ("\"" ++ s ++ "\"")
  | .vList xs =>
    match renderElems xs with
    | .ok parts => .ok ("[" ++ String.intercalate ", " parts ++ "]")
    | .error m => .error m
  | _ => .error "don\x27t know how to convert to cypher literal"

def renderElems : List Value → Except String (List String)
  | [] => .ok []
  | v :: vs =>
    match varToCypherLiteral v with
    | .ok s =>
      match renderElems vs with
      | .ok ss => .ok (s :: ss)
      | .error m => .error m
    | .error m => .error m

end

/-- `strings.ReplaceAll(s, pat, rep)` on character lists: leftmost,
non-overlapping, no re-scan of the replacement.  (Go treats an empty
pattern specially; the patterns used here always start with `$$`.) -/
def replaceAllCh (pat rep : List Char) : List Char → List Char
  | [] => []
  | c :: rest =>
    if h : pat ≠ [] ∧ pat.isPrefixOf (c :: rest) then
      rep ++ replaceAllCh pat rep ((c :: rest).drop pat.length)
    else
      c :: replaceAllCh pat rep rest
  termination_by s => s.length
  decreasing_by
    · have : 1 ≤ pat.length := by
        cases hp : pat with
        | nil => exact absurd hp h.1
        | cons a l => simp
      simp [List.length_drop]
      omega
    · simp

def replaceAllStr (s pat rep : String) : String :=
  String.mk (replaceAllCh pat.toList rep.toList s.toList)

/-- the `LocalParams` loop of `QueryCommand.Execute` (`builtin.go` lines
295-303): sequentially, in list order, replace all occurrences of
`$$name` by the rendering of `name`'s current value; a rendering error
aborts the command. -/
def substLocalsLoop (vars : List (String × Value)) :
    String → List String → Except String String
  | q, [] => .ok q
  | q, pname :: ps =>
    match varToCypherLiteral (goMapGet vars pname) with
    | .error m =>
      .error ("don\x27t yet know how to convert $$" ++ pname
        ++ " to a cypher literal string: " ++ m)
    | .ok lit => substLocalsLoop vars (replaceAllStr q ("$$" ++ pname) lit) ps

/-- the whole local-substitution step (`if len(c.LocalParams) > 0 { ... }`) -/
def localSubstResult (c : BQueryCommand) (vars : List (String × Value)) :
    Except String String :=
  if c.localParams.isEmpty then .ok c.query
  else substLocalsLoop vars c.query c.localParams

/-- `QueryCommand.Execute` (`builtin.go` lines 289-309): bind each remote
parameter Go-style (an undefined name reads as `nil`), substitute the local
parameters, append the statement. -/
def bExecute (c : BQueryCommand) (vars : List (String × Value)) :
    Except String BStatement :=
  let params := c.remoteParams.foldl (fun m n => insertAssoc m n (goMapGet vars n)) []
  match localSubstResult c vars with
  | .ok q => .ok { query := q, params := params }
  | .error m => .error m

/-- a canonical oracle/context for concrete evaluations; every theorem that
is generic in the oracle may be instantiated with it -/
def oracleZ : FloatOracle :=
  { int63n := fun _ => 0, uniformDraw := 0, gaussianStdev := fun _ => 0
    sqrtFn := fun _ => 0, expFn := fun _ => 0, logFn := fun _ => 0, piVal := 0
    csvLoad := fun _ => .error "no loader" }

def ctxZ : ScriptContext := { scriptName := "test", vars := [], oracle := oracleZ }

/-! # Properties

## Association-list (Go map) lemmas -/

theorem lookupAssoc_cons {α : Type} (p : String × α) (m : List (String × α)) (k : String) :
    lookupAssoc (p :: m) k = if p.1 = k then some p.2 else lookupAssoc m k := by
  by_cases h : p.1 = k <;> simp [lookupAssoc, List.find?_cons, h]

theorem lookupAssoc_map_replace {α : Type} (m : List (String × α)) (k j : String) (v : α)
    (hjk : j ≠ k) :
    lookupAssoc (m.map (fun p => if p.1 == k then (k, v) else p)) j = lookupAssoc m j := by
  induction m with
  | nil => rfl
  | cons p m ih =>
    have hkj : ¬ k = j := fun h => hjk h.symm
    rw [List.map_cons, lookupAssoc_cons, lookupAssoc_cons]
    by_cases hp : p.1 = k
    · rw [if_pos (show (p.1 == k) = true by simpa using hp)]
      rw [if_neg hkj, if_neg (show ¬ p.1 = j by rw [hp]; exact hkj), ih]
    · rw [if_neg (show ¬ (p.1 == k) = true by simpa using hp), ih]

theorem insertAssoc_cons_ne {α : Type} (p : String × α) (m : List (String × α))
    (k : String) (v : α) (hp : p.1 ≠ k) :
    insertAssoc (p :: m) k v = p :: insertAssoc m k v := by
  have hfind : List.find? (fun q => q.1 == k) (p :: m) = List.find? (fun q => q.1 == k) m :=
    List.find?_cons_of_neg _ (by simpa using hp)
  simp only [insertAssoc, hfind, List.map_cons]
  by_cases hs : (List.find? (fun q => q.1 == k) m).isSome = true
  · simp only [if_pos hs]
    congr 1
    rw [if_neg (show ¬ (p.1 == k) = true by simpa using hp)]
  · simp only [if_neg hs, List.cons_append]

theorem lookupAssoc_insertAssoc {α : Type} (m : List (String × α)) (k j : String) (v : α) :
    lookupAssoc (insertAssoc m k v) j = if j = k then some v else lookupAssoc m j := by
  induction m with
  | nil =>
    have h0 : insertAssoc ([] : List (String × α)) k v = [(k, v)] := rfl
    rw [h0, lookupAssoc_cons]
    by_cases h : j = k
    · simp [h]
    · rw [if_neg (fun hh : k = j => h hh.symm), if_neg h]
  | cons p m ih =>
    by_cases hp : p.1 = k
    · have hfind : List.find? (fun q => q.1 == k) (p :: m) = some p :=
        List.find?_cons_of_pos _ (by simpa using hp)
      simp only [insertAssoc, hfind, Option.isSome_some, ite_true, List.map_cons]
      rw [if_pos (show (p.1 == k) = true by simpa using hp), lookupAssoc_cons]
      by_cases hj : j = k
      · simp [hj]
      · rw [if_neg (fun hh : (k, v).1 = j => hj hh.symm),
          lookupAssoc_map_replace _ _ _ _ hj, lookupAssoc_cons,
          if_neg (show ¬ p.1 = j by rw [hp]; exact fun hh => hj hh.symm), if_neg hj]
    · rw [insertAssoc_cons_ne _ _ _ _ hp, lookupAssoc_cons, lookupAssoc_cons, ih]
      by_cases h1 : p.1 = j
      · have h2 : ¬ j = k := by rw [← h1]; exact hp
        rw [if_pos h1, if_neg h2, if_pos h1]
      · simp only [if_neg h1]

theorem lookupAssoc_foldl_insert {α : Type} (f : String → α) (ps : List String)
    (m0 : List (String × α)) (j : String) :
    lookupAssoc (ps.foldl (fun m n => insertAssoc m n (f n)) m0) j =
      if j ∈ ps then some (f j) else lookupAssoc m0 j := by
  induction ps generalizing m0 with
  | nil => simp
  | cons p ps ih =>
    simp only [List.foldl_cons, ih, lookupAssoc_insertAssoc, List.mem_cons]
    by_cases hps : j ∈ ps
    · simp [hps]
    · by_cases hjp : j = p
      · simp [hps, hjp]
      · simp [hps, hjp]

theorem mem_keys_iff_lookup {α : Type} (m : List (String × α)) (j : String) :
    j ∈ m.map Prod.fst ↔ (lookupAssoc m j).isSome := by
  induction m with
  | nil => simp [lookupAssoc]
  | cons p m ih =>
    rw [List.map_cons, List.mem_cons, lookupAssoc_cons]
    by_cases h : p.1 = j
    · simp [h]
    · have h2 : ¬ j = p.1 := fun hh => h hh.symm
      simp [h, h2, ih]

/-! ## C1 — worker pacing -/

/-- **C1.**  For every iteration of the worker loop: the recorded latency is
`now() - nextStart` (the scheduled start of the unit); with
`transactionRate > 0` the scheduled start then advances by exactly
`transactionRate` — over any run, by `rate * iterations`, never by the
elapsed time — and the worker sleeps `transactionRate - uowLatency` exactly
when the unit finished within the rate (otherwise it does not sleep); with
`transactionRate = 0` the scheduled start is reset to the current time. -/
theorem c1_pacing (transactionRate : Int) (st : PacingState) (d : Int) :
    (runIteration transactionRate st d).uowLatency = st.clock + d - st.nextStart ∧
    (0 < transactionRate →
      (runIteration transactionRate st d).state.nextStart
          = st.nextStart + transactionRate ∧
      ((runIteration transactionRate st d).uowLatency < transactionRate →
        (runIteration transactionRate st d).slept
          = transactionRate - (runIteration transactionRate st d).uowLatency) ∧
      (transactionRate ≤ (runIteration transactionRate st d).uowLatency →
        (runIteration transactionRate st d).slept = 0) ∧
      (∀ ds : List Int,
        (runLoop transactionRate st ds).2.nextStart
          = st.nextStart + transactionRate * ds.length)) ∧
    (transactionRate = 0 →
      (runIteration transactionRate st d).state.nextStart = st.clock + d) := by
  refine ⟨?_, fun hpos => ⟨?_, ?_, ?_, fun ds => runLoop_nextStart_arith _ hpos ds st⟩,
    fun hz => ?_⟩
  · by_cases h : 0 < transactionRate <;> simp [runIteration, h]
  · simp [runIteration, if_pos ‹0 < transactionRate›]
  · intro hlt
    simp only [runIteration, if_pos ‹0 < transactionRate›] at hlt ⊢
    simp only [if_pos hlt]
  · intro hge
    simp only [runIteration, if_pos ‹0 < transactionRate›] at hge ⊢
    simp only [if_neg (not_lt.mpr hge)]
  · subst hz; simp [runIteration]

/-- closed witness for `c1_pacing`: rate 5, clock 100, scheduled start 97,
unit duration 1 — latency 4, sleep 1, next start 102; and in throughput
mode the next start becomes the clock 101. -/
theorem c1_pacing_witness :
    (runIteration 5 ⟨100, 97⟩ 1).uowLatency = 4 ∧
    (runIteration 5 ⟨100, 97⟩ 1).state.nextStart = 102 ∧
    (runIteration 5 ⟨100, 97⟩ 1).slept = 1 ∧
    (runLoop 5 ⟨100, 97⟩ [1, 9, 2]).2.nextStart = 112 ∧
    (runIteration 0 ⟨100, 97⟩ 1).state.nextStart = 101 := by
  obtain ⟨hl, hpos, hz⟩ := c1_pacing 5 ⟨100, 97⟩ 1
  obtain ⟨hn, hs1, _, hloop⟩ := hpos (by norm_num)
  obtain ⟨hl0, _, hz0⟩ := c1_pacing 0 ⟨100, 97⟩ 1
  have h4 : (runIteration 5 ⟨100, 97⟩ 1).uowLatency = 4 := by rw [hl]; decide
  refine ⟨h4, by rw [hn]; decide, ?_, ?_, by rw [hz0 rfl]; decide⟩
  · rw [hs1 (by rw [h4]; decide), h4]
    decide
  · rw [hloop [1, 9, 2]]
    decide

/-! ## C2 — extracted parameters vs bound parameters -/

/-- a command is either not a query command, or carries exactly the
parameter list `parseParams` extracts from its query text -/
def cmdParamsOk (c : Command) : Prop :=
  ∀ q ps, c = .queryCmd q ps → ps = parseParams q

theorem metaP_not_query (fuel : Nat) (cs : List Char) (cmd : Command) (cs' : List Char)
    (h : metaP fuel cs = .ok (cmd, cs')) : cmdParamsOk cmd := by
  unfold metaP at h
  repeat' split at h
  iterate 6
    all_goals
      try first
        | (simp only [Except.ok.injEq, Prod.mk.injEq] at h
           obtain ⟨h1, -⟩ := h
           subst h1
           intro q ps heq
           exact Command.noConfusion heq)
        | simp at h
        | split at h

theorem parseLoopP_paramsOk (fuel : Nat) :
    ∀ cs acc cmds, (∀ c ∈ acc, cmdParamsOk c) →
      parseLoopP fuel cs acc = .ok cmds → ∀ c ∈ cmds, cmdParamsOk c := by
  induction fuel with
  | zero => intro cs acc cmds _ h; exact absurd h (by simp [parseLoopP])
  | succ fuel ih =>
    intro cs acc cmds hacc h
    rw [parseLoopP] at h
    split at h
    · simp only [Except.ok.injEq] at h
      subst h
      exact hacc
    · exact ih _ _ _ hacc h
    · split at h
      · refine ih _ _ _ ?_ h
        intro c hc
        rcases List.mem_append.mp hc with hin | hone
        · exact hacc c hin
        · rw [List.mem_singleton] at hone
          subst hone
          exact metaP_not_query _ _ _ _ (by assumption)
      · simp at h
    · refine ih _ _ _ ?_ h
      intro c hc
      rcases List.mem_append.mp hc with hin | hone
      · exact hacc c hin
      · rw [List.mem_singleton] at hone
        subst hone
        intro q' ps' heq
        cases heq
        rfl

theorem execCommand_statements (ctx : ScriptContext) (uow : UnitOfWork) (c : Command)
    (ctx' : ScriptContext) (uow' : UnitOfWork)
    (h : execCommand ctx uow c = .ok (ctx', uow')) (hc : cmdParamsOk c) :
    ∀ st ∈ uow'.statements, st ∈ uow.statements ∨
      (∀ k, (k ∈ st.params.map Prod.fst ↔ k ∈ parseParams st.query)) := by
  cases c with
  | setCmd n e =>
    simp only [execCommand] at h
    split at h
    · simp only [ERes.ok.injEq, Prod.mk.injEq] at h
      obtain ⟨-, h2⟩ := h
      subst h2
      intro st hst
      exact Or.inl hst
    · simp at h
    · simp at h
  | sleepCmd e u =>
    simp only [execCommand] at h
    split at h
    · simp only [ERes.ok.injEq, Prod.mk.injEq] at h
      obtain ⟨-, h2⟩ := h
      subst h2
      intro st hst
      exact Or.inl hst
    · simp at h
    · simp at h
    · simp at h
  | queryCmd q ps =>
    simp only [execCommand, ERes.ok.injEq, Prod.mk.injEq] at h
    obtain ⟨-, h2⟩ := h
    subst h2
    intro st hst
    rcases List.mem_append.mp hst with hin | hone
    · exact Or.inl hin
    · right
      rw [List.mem_singleton] at hone
      subst hone
      have hps : ps = parseParams q := hc q ps rfl
      subst hps
      intro k
      rw [mem_keys_iff_lookup, lookupAssoc_foldl_insert]
      by_cases hk : k ∈ parseParams q
      · simp [hk]
      · simp [hk, lookupAssoc]

theorem execCommands_paramsOk :
    ∀ (cmds : List Command) (ctx : ScriptContext) (uow : UnitOfWork),
      (∀ c ∈ cmds, cmdParamsOk c) →
      (∀ st ∈ uow.statements, ∀ k,
        (k ∈ st.params.map Prod.fst ↔ k ∈ parseParams st.query)) →
      ∀ st ∈ (execCommands ctx uow cmds).1.statements, ∀ k,
        (k ∈ st.params.map Prod.fst ↔ k ∈ parseParams st.query) := by
  intro cmds
  induction cmds with
  | nil => intro ctx uow _ huow; simpa [execCommands] using huow
  | cons c cmds ih =>
    intro ctx uow hcmds huow
    rw [execCommands]
    split
    · rename_i ctx' uow' heq
      refine ih ctx' uow' (fun d hd => hcmds d (List.mem_cons_of_mem _ hd)) ?_
      intro st hst k
      rcases execCommand_statements ctx uow c ctx' uow' heq
          (hcmds c (List.mem_cons_self c cmds)) st hst with hin | hnew
      · exact huow st hin k
      · exact hnew k
    · exact huow
    · exact huow

/-- **C2 (amended).**  For every script accepted by the parser and every
evaluation of it, each produced statement's parameter map binds exactly the
names that `parseParams` — the source's single re-scan pass — extracts from
that statement's query text.  (The original claim, that this set is exactly
the set of identifiers textually appearing as `$ident` / `{ident}` /
back-quoted `{ident}`, fails: see the counterexample, where a `$ident`
immediately following a captured parameter is skipped by the scan.) -/
theorem c2_params_exact (filename src : String) (w : ℚ) (script : Script)
    (ctx : ScriptContext) (hp : goParse filename src w = .ok script) :
    ∀ st ∈ (evalScript script ctx).1.statements, ∀ k,
      (k ∈ st.params.map Prod.fst ↔ k ∈ parseParams st.query) := by
  unfold goParse at hp
  split at hp
  · rename_i cmds hcmds
    simp only [Except.ok.injEq] at hp
    subst hp
    refine execCommands_paramsOk cmds ctx _ ?_ (by intro st hst; cases hst)
    exact parseLoopP_paramsOk _ _ _ _ (by intro c hc; cases hc) hcmds
  · simp at hp

/-- **C2, counterexample to the claim as stated.**  The query text
`RETURN $a $b` contains the parameter reference `$b` (the text decomposes
as `"RETURN $a " ++ "$b"`, and `b` is an identifier), yet the parser
extracts only `a`: after capturing `a`, the loop's unconditional `c.Next()`
consumes the following `$`, so `b` is never seen.  The produced statement
binds `a` and not `b`. -/
theorem c2_counterexample :
    goParse "t" "RETURN $a $b;" 1 =
      .ok (Script.mk "t" false 1 [.queryCmd "RETURN $a $b" ["a"]]) ∧
    "RETURN $a $b" = "RETURN $a " ++ "$b" ∧
    parseParams "RETURN $a $b" = ["a"] ∧
    ((evalScript (Script.mk "t" false 1 [.queryCmd "RETURN $a $b" ["a"]]) ctxZ).1.statements.map
      (fun st => st.params.map Prod.fst)) = [["a"]] ∧
    "b" ∉ (["a"] : List String) := by
  refine ⟨by rfl, by rfl, by rfl, ?_, by decide⟩
  simp [evalScript, execCommands, execCommand, goMapGet, lookupAssoc, insertAssoc]

/-- closed witness for `c2_params_exact` at the script `RETURN $v;` with a
prepended `\set`. -/
theorem c2_params_exact_witness :
    "v" ∈ ([("v", Value.vInt 3)] : List (String × Value)).map Prod.fst ∧
    "zzz" ∉ (parseParams "RETURN $v") := by
  have hparse : goParse "t" "\\set v 3\nRETURN $v;" 1 =
      .ok (Script.mk "t" false 1 [.setCmd "v" (.intE 3), .queryCmd "RETURN $v" ["v"]]) := by rfl
  have h := c2_params_exact "t" "\\set v 3\nRETURN $v;" 1 _ ctxZ hparse
  have hstmts : (evalScript (Script.mk "t" false 1
      [.setCmd "v" (.intE 3), .queryCmd "RETURN $v" ["v"]]) ctxZ).1.statements
      = [Statement.mk "RETURN $v" [("v", Value.vInt 3)]] := by
    simp [evalScript, execCommands, execCommand, evalExpr, goMapGet, lookupAssoc, insertAssoc,
      ctxZ]
  have hmem : (Statement.mk "RETURN $v" [("v", Value.vInt 3)])
      ∈ (evalScript (Script.mk "t" false 1
          [.setCmd "v" (.intE 3), .queryCmd "RETURN $v" ["v"]]) ctxZ).1.statements := by
    rw [hstmts]
    exact List.mem_singleton.mpr rfl
  have h2 := h _ hmem
  constructor
  · exact (h2 "v").mpr (by decide)
  · exact by decide

/-! ## C3 — the histogram records exactly the successful latencies -/


def succCount (samples : List Sample) (name : String) : Int :=
  ((samples.filter (fun s => s.name == name && s.outcome.succeeded)).length : Int)

def failCount (samples : List Sample) (name : String) : Int :=
  ((samples.filter (fun s => s.name == name && !s.outcome.succeeded)).length : Int)

def succLatencies (samples : List Sample) (name : String) : List Int :=
  (samples.filter (fun s => s.name == name && s.outcome.succeeded)).map
    (fun s => s.latency.tdiv 1000)

def recordEffect (stats : ScriptResult) (lat : Int) (o : UowOutcome) : ScriptResult :=
  if o.succeeded then
    { stats with
      succeeded := stats.succeeded + 1
      latencies := { values := stats.latencies.values ++ [lat.tdiv 1000] } }
  else { stats with failed := stats.failed + 1 }

def accumEffect (samples : List Sample) (name : String) (sr : ScriptResult) : ScriptResult :=
  { sr with
    succeeded := sr.succeeded + succCount samples name
    failed := sr.failed + failCount samples name
    latencies := { values := sr.latencies.values ++ succLatencies samples name } }

def baseFor (r0 : WorkerResult) (samples : List Sample) (name : String) : Option ScriptResult :=
  match lookupAssoc r0.scripts name with
  | some sr => some sr
  | none => if samples.any (fun s => s.name == name) then some (emptyScriptResult name) else none

theorem recordValue_ok (h : Histogram) (v : Int) (h' : Histogram)
    (he : h.recordValue v = .ok h') : h' = { values := h.values ++ [v] } := by
  unfold Histogram.recordValue at he
  split at he
  · simp at he
  · simp only [Except.ok.injEq] at he
    exact he.symm

theorem record_lookup_eq (r : WorkerResult) (sn : String) (lat : Int) (o : UowOutcome)
    (r' : WorkerResult) (h : r.record sn lat o = .ok r') (name : String) :
    (name = sn →
      lookupAssoc r'.scripts name =
        some (recordEffect ((lookupAssoc r.scripts sn).getD (emptyScriptResult sn)) lat o)) ∧
    (name ≠ sn → lookupAssoc r'.scripts name = lookupAssoc r.scripts name) := by
  simp only [WorkerResult.record] at h
  split at h
  · rename_i hsucc
    split at h
    · rename_i hist hval
      simp only [Except.ok.injEq] at h
      subst h
      have hv := recordValue_ok _ _ _ hval
      constructor
      · intro he
        subst he
        rw [lookupAssoc_insertAssoc, if_pos rfl]
        rw [recordEffect, if_pos hsucc, hv]
      · intro hne
        rw [lookupAssoc_insertAssoc, if_neg hne]
    · simp at h
  · rename_i hsucc
    simp only [Except.ok.injEq] at h
    subst h
    constructor
    · intro he
      subst he
      rw [lookupAssoc_insertAssoc, if_pos rfl]
      rw [recordEffect, if_neg hsucc]
    · intro hne
      rw [lookupAssoc_insertAssoc, if_neg hne]


attribute [ext] Histogram ScriptResult

theorem accumEffect_nil (name : String) (sr : ScriptResult) :
    accumEffect [] name sr = sr := by
  simp [accumEffect, succCount, failCount, succLatencies]

theorem accumEffect_cons_hit_succ (s : Sample) (ss : List Sample) (sr : ScriptResult)
    (hsucc : s.outcome.succeeded = true) :
    accumEffect (s :: ss) s.name sr
      = accumEffect ss s.name (recordEffect sr s.latency s.outcome) := by
  have hname : (s.name == s.name) = true := by simp
  simp only [accumEffect, recordEffect, hsucc, if_pos, succCount, failCount, succLatencies,
    List.filter_cons, hname, Bool.true_and, Bool.not_true, List.length_cons, List.map_cons,
    ite_true, Bool.false_eq_true, ite_false]
  ext : 1
  all_goals simp [List.append_assoc]
  all_goals (push_cast; ring)

theorem accumEffect_cons_hit_fail (s : Sample) (ss : List Sample) (sr : ScriptResult)
    (hsucc : s.outcome.succeeded = false) :
    accumEffect (s :: ss) s.name sr
      = accumEffect ss s.name (recordEffect sr s.latency s.outcome) := by
  have hname : (s.name == s.name) = true := by simp
  simp only [accumEffect, recordEffect, hsucc, succCount, failCount, succLatencies,
    List.filter_cons, hname, Bool.true_and, Bool.not_false, List.length_cons,
    Bool.false_eq_true, ite_false, ite_true]
  ext : 1
  all_goals simp [List.append_assoc]
  all_goals (push_cast; ring)

theorem accumEffect_cons_miss (s : Sample) (ss : List Sample) (name : String)
    (sr : ScriptResult) (hname : (s.name == name) = false) :
    accumEffect (s :: ss) name sr = accumEffect ss name sr := by
  simp only [accumEffect, succCount, failCount, succLatencies, List.filter_cons, hname,
    Bool.false_and, Bool.false_eq_true, ite_false]


theorem foldSamples_inv (samples : List Sample) (r0 r : WorkerResult)
    (h : foldSamples r0 samples = .ok r) (name : String) :
    lookupAssoc r.scripts name
      = (baseFor r0 samples name).map (accumEffect samples name) := by
  induction samples generalizing r0 with
  | nil =>
    simp only [foldSamples, Except.ok.injEq] at h
    subst h
    rw [baseFor]
    cases hl : lookupAssoc r0.scripts name with
    | none => simp [hl]
    | some sr => simp [hl, accumEffect_nil]
  | cons s ss ih =>
    simp only [foldSamples] at h
    split at h
    · rename_i r1 hrec
      have hrest := ih r1 h
      by_cases hn : name = s.name
      · subst hn
        have hstep := (record_lookup_eq r0 s.name s.latency s.outcome r1 hrec s.name).1 rfl
        have hhit : accumEffect (s :: ss) s.name
            = fun sr => accumEffect ss s.name (recordEffect sr s.latency s.outcome) := by
          funext sr
          cases hsucc : s.outcome.succeeded with
          | true => exact accumEffect_cons_hit_succ s ss sr hsucc
          | false => exact accumEffect_cons_hit_fail s ss sr hsucc
        rw [hrest, baseFor, hstep, baseFor, hhit]
        cases hl : lookupAssoc r0.scripts s.name with
        | none => simp [hl, List.any_cons]
        | some sr => simp [hl]
      · have hne : (s.name == name) = false := by
          simp only [beq_eq_false_iff_ne, ne_eq]
          exact fun hh => hn hh.symm
        have hstep := (record_lookup_eq r0 s.name s.latency s.outcome r1 hrec name).2 hn
        have hmiss : accumEffect (s :: ss) name = accumEffect ss name := by
          funext sr
          exact accumEffect_cons_miss s ss name sr hne
        rw [hrest, baseFor, hstep, baseFor, hmiss]
        cases hl : lookupAssoc r0.scripts name with
        | some sr => simp [hl]
        | none => simp [hl, List.any_cons, hne]
    · exact absurd h (by simp)

/-- **C3.**  For every sequence of outcomes recorded into a fresh
`WorkerResult` (worker.go `WorkerResult.record`, lines 276-307), each
script\x27s latency histogram holds exactly the latencies (in microseconds,
truncated) of that script\x27s *successful* units of work, its total count
equals the script\x27s `succeeded` counter, and `failed` counts exactly the
failures — failures never touch the histogram. -/
theorem c3_histogram_success_only (w : Int) (samples : List Sample)
    (r : WorkerResult) (name : String) (sr : ScriptResult)
    (hfold : foldSamples (newWorkerResult w) samples = .ok r)
    (hlook : lookupAssoc r.scripts name = some sr) :
    sr.latencies.values = succLatencies samples name ∧
    sr.latencies.totalCount = sr.succeeded ∧
    sr.succeeded = succCount samples name ∧
    sr.failed = failCount samples name := by
  have hinv := foldSamples_inv samples (newWorkerResult w) r hfold name
  rw [hlook] at hinv
  have h0 : lookupAssoc (newWorkerResult w).scripts name = none := by
    simp [newWorkerResult, lookupAssoc]
  rw [baseFor, h0] at hinv
  cases hany : samples.any (fun t => t.name == name) with
  | false =>
    rw [hany] at hinv
    simp at hinv
  | true =>
    rw [hany] at hinv
    simp only [if_true, Option.map_some, Option.map_some', Option.some.injEq] at hinv
    subst hinv
    refine ⟨?_, ?_, ?_, ?_⟩
    · simp [accumEffect, emptyScriptResult]
    · simp [accumEffect, emptyScriptResult, Histogram.totalCount, succLatencies, succCount]
    · simp [accumEffect, emptyScriptResult]
    · simp [accumEffect, emptyScriptResult]


/-- Two concrete samples for script "s": one success at 1500 ns, one
failure at 2000 ns in group "grp" with message "boom". -/
def c3samples : List Sample :=
  [⟨"s", 1500, ⟨true, "", ""⟩⟩, ⟨"s", 2000, ⟨false, "grp", "boom"⟩⟩]

def c3sr : ScriptResult := ⟨"s", 0, 1, 1, ⟨[1]⟩⟩

def c3result : WorkerResult := ⟨0, [("s", c3sr)], [("grp", ⟨1, "boom"⟩)]⟩

theorem c3_histogram_success_only_witness :
    foldSamples (newWorkerResult 0) c3samples = .ok c3result ∧
    lookupAssoc c3result.scripts "s" = some c3sr ∧
    (c3sr.latencies.values = succLatencies c3samples "s" ∧
     c3sr.latencies.totalCount = c3sr.succeeded ∧
     c3sr.succeeded = succCount c3samples "s" ∧
     c3sr.failed = failCount c3samples "s") :=
  ⟨by rfl, by decide,
   c3_histogram_success_only 0 c3samples c3result "s" c3sr (by rfl) (by decide)⟩


/-! ## C4 — no recorded sample is lost across progress checkpoints -/

theorem runRecOps_total (ops : List RecOp) (t t1 : ResultRecorder)
    (reports : List WorkerResult) (h : runRecOps t ops = .ok (t1, reports)) :
    foldSamples t.total (samplesOf ops) = .ok t1.total := by
  induction ops generalizing t reports with
  | nil =>
    simp only [runRecOps, Except.ok.injEq, Prod.mk.injEq] at h
    obtain ⟨h1, -⟩ := h
    subst h1
    rfl
  | cons op ops ih =>
    cases op with
    | sample s =>
      simp only [runRecOps] at h
      split at h
      · rename_i t2 hrec
        simp only [ResultRecorder.record] at hrec
        split at hrec
        · exact absurd hrec (by simp)
        · rename_i cur hcur
          split at hrec
          · exact absurd hrec (by simp)
          · rename_i tot htot
            simp only [Except.ok.injEq] at hrec
            subst hrec
            have hrest := ih _ _ h
            simp only [samplesOf, List.filterMap_cons] at hrest ⊢
            rw [foldSamples, htot]
            exact hrest
      · exact absurd h (by simp)
    | progress now =>
      simp only [runRecOps, ResultRecorder.progressReport] at h
      split at h
      · rename_i t2 snaps hrun
        simp only [Except.ok.injEq, Prod.mk.injEq] at h
        obtain ⟨h1, -⟩ := h
        subst h1
        have hrest := ih _ _ hrun
        simpa [samplesOf, List.filterMap_cons] using hrest
      · exact absurd h (by simp)

/-- **C4.**  For every serial interleaving of `record` and `ProgressReport`
operations on a fresh `ResultRecorder` (worker.go lines 177-239): the final
`total` is exactly the fold of every recorded sample (none is lost by
draining `current`); each successful `record` updates `current` and `total`
together in one step; and `ProgressReport` leaves `total` untouched while
resetting `current` to empty with `currentStart := now`. -/
theorem c4_no_sample_lost (w s0 : Int) (ops : List RecOp)
    (t1 : ResultRecorder) (reports : List WorkerResult)
    (h : runRecOps (newResultRecorder w s0) ops = .ok (t1, reports)) :
    foldSamples (newWorkerResult w) (samplesOf ops) = .ok t1.total ∧
    (∀ (u u1 : ResultRecorder) (name : String) (lat : Int) (o : UowOutcome),
      u.record name lat o = .ok u1 →
      ∃ cur tot, u.current.record name lat o = .ok cur ∧
        u.total.record name lat o = .ok tot ∧
        u1 = { u with current := cur, total := tot }) ∧
    (∀ (u : ResultRecorder) (now : Int),
      (u.progressReport now).2.total = u.total ∧
      (u.progressReport now).2.current = newWorkerResult u.current.workerId ∧
      (u.progressReport now).2.currentStart = now) := by
  refine ⟨runRecOps_total ops _ _ _ h, ?_, ?_⟩
  · intro u u1 name lat o hrec
    simp only [ResultRecorder.record] at hrec
    split at hrec
    · exact absurd hrec (by simp)
    · rename_i cur hcur
      split at hrec
      · exact absurd hrec (by simp)
      · rename_i tot htot
        simp only [Except.ok.injEq] at hrec
        exact ⟨cur, tot, hcur, htot, hrec.symm⟩
  · intro u now
    exact ⟨rfl, rfl, rfl⟩

def c4ops : List RecOp :=
  [.sample ⟨"s", 1500, ⟨true, "", ""⟩⟩, .progress 10,
   .sample ⟨"s", 2000, ⟨false, "grp", "boom"⟩⟩]


def c4t1 : ResultRecorder :=
  ⟨⟨0, [("s", ⟨"s", 0, 1, 0, ⟨[]⟩⟩)], [("grp", ⟨1, "boom"⟩)]⟩, 10,
   ⟨0, [("s", ⟨"s", 0, 1, 1, ⟨[1]⟩⟩)], [("grp", ⟨1, "boom"⟩)]⟩, 0⟩

/-- The progress snapshot: one success, rate computed over a 10 ns window
(the microsecond delta truncates to zero, and Go float division by zero is
modelled by Rat division by zero). -/
def c4reports : List WorkerResult :=
  [⟨0, [("s", ⟨"s",
      ((((1 : Int) : ℚ) + ((0 : Int) : ℚ)) / ((0 : Int) : ℚ)) * 1000 * 1000,
      0, 1, ⟨[1]⟩⟩)], []⟩]

theorem c4_no_sample_lost_witness :
    runRecOps (newResultRecorder 0 0) c4ops = .ok (c4t1, c4reports) ∧
    foldSamples (newWorkerResult 0) (samplesOf c4ops) = .ok c4t1.total :=
  ⟨by rfl, (c4_no_sample_lost 0 0 c4ops c4t1 c4reports (by rfl)).1⟩

/-! ## C5 — expression evaluation can panic (out-of-range index, random with empty range) -/

/-- **C5.**  Refuted: evaluation is *not* panic-free.  `SliceExpr.Eval`
(parser.go lines 513-538) indexes `src[i]` without a bounds check, so an
out-of-range or negative list index is a runtime panic, not a returned
error; and `random(5, 1)` reaches `rand.Int63n(-4)`, which panics.  Only
the float-index case is surfaced as an error as the spec says. -/
theorem c5_eval_panics :
    evalExpr ctxZ (.sliceE (.listE [.intE 42]) (.intE 5))
        = .panic "runtime error: index out of range" ∧
    (evalExpr ctxZ (.sliceE (.listE [.intE 42]) (.intE 5))).isPanic = true ∧
    evalExpr ctxZ (.sliceE (.listE [.intE 42]) (.intE (-1)))
        = .panic "runtime error: index out of range" ∧
    evalExpr ctxZ (.callE "random" [.intE 5, .intE 1])
        = .panic "invalid argument to Int63n" ∧
    evalExpr ctxZ (.sliceE (.listE [.intE 42]) (.floatE (3/2)))
        = .err "floats can\x27t be used as indexes in slices" := by
  refine ⟨?_, ?_, ?_, ?_, ?_⟩ <;>
    simp [evalExpr, evalCall, evalSeq, argNum, asNumber, uniformRand, ctxZ, oracleZ,
      ERes.isPanic]

/-! ## C6 — local-parameter substitution (`$$name`) -/

/-- skipping a `$`-free chunk: `strings.ReplaceAll` leaves it untouched
when the pattern starts with `$` -/
theorem replaceAllCh_append_free (pat rep : List Char) (hpat : pat.head? = some '$')
    (s : List Char) (hs : '$' ∉ s) (t : List Char) :
    replaceAllCh pat rep (s ++ t) = s ++ replaceAllCh pat rep t := by
  induction s with
  | nil => simp
  | cons c s ih =>
    have hc : c ≠ '$' := fun h => hs (h ▸ List.mem_cons_self c s)
    have hs' : '$' ∉ s := fun h => hs (List.mem_cons_of_mem c h)
    rw [List.cons_append, replaceAllCh]
    rw [dif_neg]
    · rw [ih hs']
      rfl
    · rintro ⟨hne, hpre⟩
      cases hp : pat with
      | nil => exact hne hp
      | cons p ps =>
        rw [hp] at hpre hpat
        simp only [List.head?_cons, Option.some.injEq] at hpat
        simp only [List.isPrefixOf, Bool.and_eq_true, beq_iff_eq] at hpre
        exact hc (hpre.1.symm.trans hpat)

/-- a pattern occurrence at the head is replaced and skipped -/
theorem replaceAllCh_append_pat (pat rep : List Char) (hne : pat ≠ [])
    (t : List Char) :
    replaceAllCh pat rep (pat ++ t) = rep ++ replaceAllCh pat rep t := by
  cases hp : pat with
  | nil => exact absurd hp hne
  | cons p ps =>
    subst hp
    rw [List.cons_append, replaceAllCh]
    rw [dif_pos]
    · have hd : (p :: (ps ++ t)).drop (p :: ps).length = t := by
        simp only [List.length_cons, List.drop_succ_cons]
        exact List.drop_left ps t
      rw [hd]
    · constructor
      · simp
      · rw [← List.cons_append]
        exact List.isPrefixOf_iff_prefix.mpr (List.prefix_append _ t)

theorem replaceAllCh_nil (pat rep : List Char) : replaceAllCh pat rep [] = [] := by
  rw [replaceAllCh]

/-- a `$`-free string is left entirely unchanged -/
theorem replaceAllCh_free (pat rep : List Char) (hpat : pat.head? = some '$')
    (s : List Char) (hs : '$' ∉ s) :
    replaceAllCh pat rep s = s := by
  have := replaceAllCh_append_free pat rep hpat s hs []
  simpa [replaceAllCh_nil] using this

/-- `sep.intercalate segs` on raw character lists -/
def joinSep (sep : List Char) : List (List Char) → List Char
  | [] => []
  | [s] => s
  | s :: rest => s ++ sep ++ joinSep sep rest

theorem replaceAllCh_joinSep (pat rep : List Char) (hpat : pat.head? = some '$')
    (segs : List (List Char)) (hsegs : ∀ s ∈ segs, '$' ∉ s) :
    replaceAllCh pat rep (joinSep pat segs) = joinSep rep segs := by
  induction segs with
  | nil => simp [joinSep, replaceAllCh_nil]
  | cons s rest ih =>
    cases rest with
    | nil =>
      simp only [joinSep]
      exact replaceAllCh_free pat rep hpat s (hsegs s (by simp))
    | cons s2 rest2 =>
      have hne : pat ≠ [] := by
        intro h
        rw [h] at hpat
        exact Option.noConfusion hpat
      simp only [joinSep]
      rw [List.append_assoc,
        replaceAllCh_append_free pat rep hpat s (hsegs s (by simp)) _,
        replaceAllCh_append_pat pat rep hne,
        ih (fun x hx => hsegs x (List.mem_cons_of_mem s hx))]
      rw [List.append_assoc]

/-- **C6 (amended).**  `QueryCommand.Execute` with a single local parameter
`n` whose `$$n` occurrences split the query into `$`-free chunks: every
occurrence is replaced by the Cypher-literal rendering of `n`\x27s value, the
renderings are as specified (int decimal, bool `true`/`false`, string
double-quoted unescaped, list bracketed, map an error), and the outgoing
parameter map binds exactly the remote parameters — never a local-only
name.  (With *several* local parameters the sequential `strings.ReplaceAll`
loop can cascade; see the counterexample.) -/
theorem c6_local_subst (c : BQueryCommand) (vars : List (String × Value))
    (n lit : String) (segs : List (List Char)) (st : BStatement)
    (hlocal : c.localParams = [n])
    (hlit : varToCypherLiteral (goMapGet vars n) = .ok lit)
    (hquery : c.query.toList = joinSep ("$$" ++ n).toList segs)
    (hsegs : ∀ s ∈ segs, '$' ∉ s)
    (hexec : bExecute c vars = .ok st) :
    st.query.toList = joinSep lit.toList segs ∧
    (∀ j : String, (lookupAssoc st.params j).isSome → j ∈ c.remoteParams) ∧
    (∀ j : String, j ∈ c.remoteParams → lookupAssoc st.params j = some (goMapGet vars j)) ∧
    (∀ i : Int, varToCypherLiteral (.vInt i) = .ok (toString i)) ∧
    (∀ b : Bool, varToCypherLiteral (.vBool b) = .ok (if b then "true" else "false")) ∧
    (∀ s : String, varToCypherLiteral (.vStr s) = .ok ("\"" ++ s ++ "\"")) ∧
    (∀ m : List (String × Value),
      varToCypherLiteral (.vMap m) = .error "don\x27t know how to convert to cypher literal") := by
  have hpat : ("$$" ++ n).toList.head? = some '$' := by
    have : ("$$" ++ n).toList = '$' :: '$' :: n.toList := by
      simp [String.toList]
    rw [this]
    rfl
  have hq : localSubstResult c vars = .ok (replaceAllStr c.query ("$$" ++ n) lit) := by
    rw [localSubstResult, if_neg (by simp [hlocal]), hlocal]
    simp only [substLocalsLoop, hlit]
  rw [bExecute, hq] at hexec
  simp only [Except.ok.injEq] at hexec
  subst hexec
  refine ⟨?_, ?_, ?_, fun i => rfl, fun b => rfl, fun s => rfl, fun m => rfl⟩
  · show (replaceAllStr c.query ("$$" ++ n) lit).toList = joinSep lit.toList segs
    rw [replaceAllStr]
    show replaceAllCh ("$$" ++ n).toList lit.toList c.query.toList = joinSep lit.toList segs
    rw [hquery]
    exact replaceAllCh_joinSep _ _ hpat segs hsegs
  · intro j hj
    rw [lookupAssoc_foldl_insert (fun k => goMapGet vars k) c.remoteParams [] j] at hj
    by_cases hmem : j ∈ c.remoteParams
    · exact hmem
    · rw [if_neg hmem] at hj
      simp [lookupAssoc] at hj
  · intro j hj
    rw [lookupAssoc_foldl_insert (fun k => goMapGet vars k) c.remoteParams [] j, if_pos hj]

/-- The *spec\x27s* reading of local substitution (the claim\x27s second,
spec-side definition): ONE left-to-right pass over the original query
text; wherever `$$name` occurs for a local parameter `name`, the rendering
of `name`\x27s current value is emitted and the occurrence skipped; emitted
renderings are never re-scanned.  Fuel is the character count plus one. -/
def specSubstLocalsAux (vars : List (String × Value)) (params : List String) :
    Nat → List Char → Except String (List Char)
  | 0, _ => .error "fuel exhausted"
  | _ + 1, [] => .ok []
  | fuel + 1, c :: rest =>
    match params.find? (fun n => ("$$" ++ n).toList.isPrefixOf (c :: rest)) with
    | some n =>
      match varToCypherLiteral (goMapGet vars n) with
      | .error m => .error m
      | .ok lit =>
        match specSubstLocalsAux vars params fuel ((c :: rest).drop ("$$" ++ n).toList.length) with
        | .ok out => .ok (lit.toList ++ out)
        | .error m => .error m
    | none =>
      match specSubstLocalsAux vars params fuel rest with
      | .ok out => .ok (c :: out)
      | .error m => .error m

def specSubstLocals (vars : List (String × Value)) (params : List String)
    (q : String) : Except String String :=
  match specSubstLocalsAux vars params (q.toList.length + 1) q.toList with
  | .ok out => .ok (String.mk out)
  | .error m => .error m

def c6vars : List (String × Value) := [("a", .vStr "$$b"), ("b", .vInt 1)]

def c6qc : BQueryCommand := ⟨"RETURN $$a", [], ["a", "b"]⟩

/-- **C6 (counterexample).**  With `a = "$$b"` (a string whose *content*
is `$$b`) and `b = 1`, the spec\x27s one-pass reading of
`RETURN $$a` yields `RETURN "$$b"` — the rendering of `a`\x27s value,
verbatim.  The code\x27s sequential `strings.ReplaceAll` loop instead
cascades: the text injected for `$$a` is re-scanned by the later
`$$b` pass, producing `RETURN "1"`. -/
theorem c6_counterexample :
    specSubstLocals c6vars ["a", "b"] "RETURN $$a" = .ok "RETURN \"$$b\"" ∧
    bExecute c6qc c6vars = .ok ⟨"RETURN \"1\"", []⟩ ∧
    ("RETURN \"1\"" : String) ≠ "RETURN \"$$b\"" := by
  have hs1 : replaceAllStr "RETURN $$a" "$$a" "\"$$b\"" = "RETURN \"$$b\"" := by
    rw [replaceAllStr]
    have e1 : "RETURN $$a".toList = "RETURN ".toList ++ ("$$a".toList ++ []) := by decide
    rw [e1, replaceAllCh_append_free _ _ (by decide) _ (by decide),
      replaceAllCh_append_pat _ _ (by decide), replaceAllCh_nil]
    decide
  have hs2 : replaceAllStr "RETURN \"$$b\"" "$$b" "1" = "RETURN \"1\"" := by
    rw [replaceAllStr]
    have e2 : "RETURN \"$$b\"".toList
        = "RETURN \"".toList ++ ("$$b".toList ++ "\"".toList) := by decide
    rw [e2, replaceAllCh_append_free _ _ (by decide) _ (by decide),
      replaceAllCh_append_pat _ _ (by decide),
      replaceAllCh_free _ _ (by decide) _ (by decide)]
    decide
  have hloop : substLocalsLoop c6vars "RETURN $$a" ["a", "b"]
      = substLocalsLoop c6vars (replaceAllStr "RETURN $$a" "$$a" "\"$$b\"") ["b"] := rfl
  rw [hs1] at hloop
  have hloop2 : substLocalsLoop c6vars "RETURN \"$$b\"" ["b"]
      = .ok (replaceAllStr "RETURN \"$$b\"" "$$b" "1") := rfl
  rw [hs2] at hloop2
  have hsubst : localSubstResult c6qc c6vars = .ok "RETURN \"1\"" := by
    rw [localSubstResult, if_neg (by decide)]
    show substLocalsLoop c6vars "RETURN $$a" ["a", "b"] = _
    rw [hloop, hloop2]
  refine ⟨by rfl, ?_, by decide⟩
  show (match localSubstResult c6qc c6vars with
    | .ok q => .ok { query := q, params := [] }
    | .error m => .error m : Except String BStatement) = .ok ⟨"RETURN \"1\"", []⟩
  rw [hsubst]

def c6wc : BQueryCommand := ⟨"RETURN $$n", ["x"], ["n"]⟩

def c6wvars : List (String × Value) := [("n", .vInt 7), ("x", .vInt 3)]

def c6wst : BStatement := ⟨"RETURN 7", [("x", .vInt 3)]⟩

theorem c6_local_subst_witness :
    bExecute c6wc c6wvars = .ok c6wst ∧
    c6wst.query.toList = joinSep "7".toList ["RETURN ".toList, []] ∧
    (∀ j : String, (lookupAssoc c6wst.params j).isSome → j ∈ c6wc.remoteParams) := by
  have hrep : replaceAllStr "RETURN $$n" "$$n" "7" = "RETURN 7" := by
    rw [replaceAllStr]
    have e : "RETURN $$n".toList = "RETURN ".toList ++ ("$$n".toList ++ []) := by decide
    rw [e, replaceAllCh_append_free _ _ (by decide) _ (by decide),
      replaceAllCh_append_pat _ _ (by decide), replaceAllCh_nil]
    decide
  have hexec0 : bExecute c6wc c6wvars
      = .ok ⟨replaceAllStr "RETURN $$n" "$$n" "7", [("x", .vInt 3)]⟩ := rfl
  rw [hrep] at hexec0
  have hexec : bExecute c6wc c6wvars = .ok c6wst := hexec0
  obtain ⟨h1, h2, -⟩ :=
    c6_local_subst c6wc c6wvars "n" "7" ["RETURN ".toList, []] c6wst rfl rfl
      (by decide) (by decide) hexec
  exact ⟨hexec, h1, h2⟩

/-! ## C7 — meta-command syntax -/

/-- **C7.**  Refuted: the parser does not treat `:` lines as meta-commands
and does not accept `opt`.  A `:opt autocommit` line is swallowed into the
surrounding query text as ordinary characters; meta-commands are introduced
by a backslash, and the accepted names are exactly `set` and `sleep`
(`opt` is "unexpected meta command"); the sleep unit defaults to seconds
and accepts `us`/`ms`/`s`. -/
theorem c7_meta_commands :
    goParse "t" ":opt autocommit;\nRETURN 1;" 1
      = .ok ⟨"t", false, 1, [.queryCmd ":opt autocommit" [], .queryCmd "RETURN 1" []]⟩ ∧
    goParse "t" "\\opt autocommit\nRETURN 1;" 1
      = .error "unexpected meta command: \x27opt\x27" ∧
    goParse "t" "\\set x 1\nRETURN $x;" 1
      = .ok ⟨"t", false, 1, [.setCmd "x" (.intE 1), .queryCmd "RETURN $x" ["x"]]⟩ ∧
    goParse "t" "\\sleep 2\nRETURN 1;" 1
      = .ok ⟨"t", false, 1, [.sleepCmd (.intE 2) 1000000000, .queryCmd "RETURN 1" []]⟩ ∧
    goParse "t" "\\sleep 2 ms\nRETURN 1;" 1
      = .ok ⟨"t", false, 1, [.sleepCmd (.intE 2) 1000000, .queryCmd "RETURN 1" []]⟩ ∧
    goParse "t" "\\sleep 2 days\nRETURN 1;" 1
      = .error "\\sleep command must use \x27us\x27, \x27ms\x27, or \x27s\x27 unit argument - or none. got: days" :=
  ⟨rfl, rfl, rfl, rfl, rfl, rfl⟩

/-! ## C8 — cross-worker merge: sums per script, fold-order independence -/

/-- every per-script contribution a sequence of worker results feeds into
the merge, in sequence order -/
def allScriptVals (ws : List WorkerResult) : List ScriptResult :=
  ws.flatMap (fun w => w.scripts.map Prod.snd)

def allGroups (ws : List WorkerResult) : List (String × FailureGroup) :=
  ws.flatMap (fun w => w.failedByErrorGroup)

/-- the present-key branch of `mergeScript`: sum rate/succeeded/failed,
concatenate histogram values -/
def combineS (c w : ScriptResult) : ScriptResult :=
  { c with rate := c.rate + w.rate, succeeded := c.succeeded + w.succeeded
           failed := c.failed + w.failed
           latencies := { values := c.latencies.values ++ w.latencies.values } }

def combineG (e p : FailureGroup) : FailureGroup :=
  { count := e.count + p.count, firstFailure := e.firstFailure }

/-- right-fold merge of a sequence of worker results -/
def mergeAllR (base : Result) (ws : List WorkerResult) : Result :=
  ws.foldr (fun w r => r.add w) base

def scriptSucc (r : Result) (k : String) : Int :=
  ((lookupAssoc r.scripts k).map (fun s => s.succeeded)).getD 0

def scriptFail (r : Result) (k : String) : Int :=
  ((lookupAssoc r.scripts k).map (fun s => s.failed)).getD 0

def scriptRate (r : Result) (k : String) : ℚ :=
  ((lookupAssoc r.scripts k).map (fun s => s.rate)).getD 0

/-- the merged histogram for script `k`, as a multiset (the order of the
recorded values is what HDR precision forgets) -/
def scriptLats (r : Result) (k : String) : Multiset Int :=
  ((lookupAssoc r.scripts k).map (fun s => (s.latencies.values : Multiset Int))).getD 0

def groupCount (r : Result) (k : String) : Int :=
  ((lookupAssoc r.failedByErrorGroup k).map (fun g => g.count)).getD 0

theorem mergeAll_scripts (ws : List WorkerResult) (base : Result) :
    (mergeAll base ws).scripts = (allScriptVals ws).foldl mergeScript base.scripts ∧
    (mergeAll base ws).failedByErrorGroup
      = (allGroups ws).foldl mergeGroup base.failedByErrorGroup := by
  induction ws generalizing base with
  | nil => exact ⟨rfl, rfl⟩
  | cons w ws ih =>
    have h := ih (base.add w)
    simp only [mergeAll, List.foldl_cons] at h ⊢
    simp only [allScriptVals, allGroups, List.flatMap_cons, List.foldl_append]
    exact h

theorem lookup_foldl_mergeScript (vals : List ScriptResult)
    (m : List (String × ScriptResult)) (k : String) :
    lookupAssoc (vals.foldl mergeScript m) k =
      match lookupAssoc m k with
      | some c => some ((vals.filter (fun s => s.scriptName == k)).foldl combineS c)
      | none =>
        match vals.filter (fun s => s.scriptName == k) with
        | [] => none
        | v :: rest => some (rest.foldl combineS v) := by
  induction vals generalizing m with
  | nil =>
    cases h : lookupAssoc m k <;> simp [h]
  | cons v vals ih =>
    rw [List.foldl_cons]
    have hmerge : ∀ x, mergeScript m v = insertAssoc m v.scriptName x →
        lookupAssoc (vals.foldl mergeScript (mergeScript m v)) k =
          match lookupAssoc (insertAssoc m v.scriptName x) k with
          | some c => some ((vals.filter (fun s => s.scriptName == k)).foldl combineS c)
          | none =>
            match vals.filter (fun s => s.scriptName == k) with
            | [] => none
            | v2 :: rest => some (rest.foldl combineS v2) := by
      intro x hx
      rw [hx]
      exact ih (insertAssoc m v.scriptName x)
    by_cases hk : v.scriptName = k
    · subst hk
      cases hm : lookupAssoc m v.scriptName with
      | none =>
        have hx : mergeScript m v = insertAssoc m v.scriptName v := by
          rw [mergeScript, hm]
        rw [hmerge v hx, lookupAssoc_insertAssoc, if_pos rfl]
        simp [List.filter_cons]
      | some c =>
        have hx : mergeScript m v = insertAssoc m v.scriptName (combineS c v) := by
          rw [mergeScript, hm]
          rfl
        rw [hmerge _ hx, lookupAssoc_insertAssoc, if_pos rfl]
        simp [List.filter_cons]
    · have hfilter : (v :: vals).filter (fun s => s.scriptName == k)
          = vals.filter (fun s => s.scriptName == k) := by
        simp [List.filter_cons, hk]
      cases hm : lookupAssoc m v.scriptName with
      | none =>
        have hx : mergeScript m v = insertAssoc m v.scriptName v := by
          rw [mergeScript, hm]
        rw [hmerge v hx, lookupAssoc_insertAssoc, if_neg (fun h => hk h.symm), hfilter]
      | some c =>
        have hx : mergeScript m v = insertAssoc m v.scriptName (combineS c v) := by
          rw [mergeScript, hm]
          rfl
        rw [hmerge _ hx, lookupAssoc_insertAssoc, if_neg (fun h => hk h.symm), hfilter]

theorem lookup_foldl_mergeGroup (ps : List (String × FailureGroup))
    (m : List (String × FailureGroup)) (k : String) :
    lookupAssoc (ps.foldl mergeGroup m) k =
      match lookupAssoc m k with
      | some e => some ((ps.filter (fun p => p.1 == k)).foldl (fun e q => combineG e q.2) e)
      | none =>
        match ps.filter (fun p => p.1 == k) with
        | [] => none
        | q :: rest => some (rest.foldl (fun e q2 => combineG e q2.2) q.2) := by
  induction ps generalizing m with
  | nil =>
    cases h : lookupAssoc m k <;> simp [h]
  | cons q ps ih =>
    rw [List.foldl_cons]
    have hmerge : ∀ x, mergeGroup m q = insertAssoc m q.1 x →
        lookupAssoc (ps.foldl mergeGroup (mergeGroup m q)) k =
          match lookupAssoc (insertAssoc m q.1 x) k with
          | some e => some ((ps.filter (fun p => p.1 == k)).foldl (fun e q2 => combineG e q2.2) e)
          | none =>
            match ps.filter (fun p => p.1 == k) with
            | [] => none
            | q2 :: rest => some (rest.foldl (fun e q3 => combineG e q3.2) q2.2) := by
      intro x hx
      rw [hx]
      exact ih (insertAssoc m q.1 x)
    by_cases hk : q.1 = k
    · subst hk
      cases hm : lookupAssoc m q.1 with
      | none =>
        have hx : mergeGroup m q = insertAssoc m q.1 q.2 := by
          rw [mergeGroup, hm]
        rw [hmerge q.2 hx, lookupAssoc_insertAssoc, if_pos rfl]
        simp [List.filter_cons]
      | some e =>
        have hx : mergeGroup m q = insertAssoc m q.1 (combineG e q.2) := by
          rw [mergeGroup, hm]
          rfl
        rw [hmerge _ hx, lookupAssoc_insertAssoc, if_pos rfl]
        simp [List.filter_cons]
    · have hfilter : ((q :: ps).filter (fun p => p.1 == k))
          = ps.filter (fun p => p.1 == k) := by
        simp [List.filter_cons, hk]
      cases hm : lookupAssoc m q.1 with
      | none =>
        have hx : mergeGroup m q = insertAssoc m q.1 q.2 := by
          rw [mergeGroup, hm]
        rw [hmerge q.2 hx, lookupAssoc_insertAssoc, if_neg (fun h => hk h.symm), hfilter]
      | some e =>
        have hx : mergeGroup m q = insertAssoc m q.1 (combineG e q.2) := by
          rw [mergeGroup, hm]
          rfl
        rw [hmerge _ hx, lookupAssoc_insertAssoc, if_neg (fun h => hk h.symm), hfilter]

theorem foldl_combineS_fields (vals : List ScriptResult) (c : ScriptResult) :
    (vals.foldl combineS c).succeeded = c.succeeded + (vals.map (fun s => s.succeeded)).sum ∧
    (vals.foldl combineS c).failed = c.failed + (vals.map (fun s => s.failed)).sum ∧
    (vals.foldl combineS c).rate = c.rate + (vals.map (fun s => s.rate)).sum ∧
    ((vals.foldl combineS c).latencies.values : Multiset Int)
      = (c.latencies.values : Multiset Int)
          + (vals.map (fun s => (s.latencies.values : Multiset Int))).sum := by
  induction vals generalizing c with
  | nil => simp
  | cons v vals ih =>
    obtain ⟨h1, h2, h3, h4⟩ := ih (combineS c v)
    rw [List.foldl_cons]
    refine ⟨?_, ?_, ?_, ?_⟩
    · rw [h1]
      simp [combineS, add_assoc]
    · rw [h2]
      simp [combineS, add_assoc]
    · rw [h3]
      simp [combineS, add_assoc]
    · rw [h4]
      simp only [combineS, List.map_cons, List.sum_cons]
      show (c.latencies.values : Multiset Int) + (v.latencies.values : Multiset Int) + _ = _
      rw [add_assoc]

theorem foldl_combineG_count (qs : List (String × FailureGroup)) (e : FailureGroup) :
    (qs.foldl (fun e q => combineG e q.2) e).count
      = e.count + (qs.map (fun q => q.2.count)).sum := by
  induction qs generalizing e with
  | nil => simp
  | cons q qs ih =>
    rw [List.foldl_cons, ih]
    simp [combineG, add_assoc]

theorem merge_projections (db sc k : String) (ws : List WorkerResult) :
    scriptSucc (mergeAll (newResult db sc) ws) k
      = (((allScriptVals ws).filter (fun s => s.scriptName == k)).map
          (fun s => s.succeeded)).sum ∧
    scriptFail (mergeAll (newResult db sc) ws) k
      = (((allScriptVals ws).filter (fun s => s.scriptName == k)).map
          (fun s => s.failed)).sum ∧
    scriptRate (mergeAll (newResult db sc) ws) k
      = (((allScriptVals ws).filter (fun s => s.scriptName == k)).map
          (fun s => s.rate)).sum ∧
    scriptLats (mergeAll (newResult db sc) ws) k
      = (((allScriptVals ws).filter (fun s => s.scriptName == k)).map
          (fun s => (s.latencies.values : Multiset Int))).sum ∧
    groupCount (mergeAll (newResult db sc) ws) k
      = (((allGroups ws).filter (fun p => p.1 == k)).map (fun q => q.2.count)).sum := by
  obtain ⟨hs, hg⟩ := mergeAll_scripts ws (newResult db sc)
  have hnone : lookupAssoc (newResult db sc).scripts k = none := rfl
  have hgnone : lookupAssoc (newResult db sc).failedByErrorGroup k = none := rfl
  rw [scriptSucc, scriptFail, scriptRate, scriptLats, groupCount, hs, hg,
    lookup_foldl_mergeScript, lookup_foldl_mergeGroup, hnone, hgnone]
  refine ⟨?_, ?_, ?_, ?_, ?_⟩
  · cases hf : (allScriptVals ws).filter (fun s => s.scriptName == k) with
    | nil => simp
    | cons v rest =>
      simp only [Option.map_some, Option.getD_some, List.map_cons, List.sum_cons]
      exact (foldl_combineS_fields rest v).1
  · cases hf : (allScriptVals ws).filter (fun s => s.scriptName == k) with
    | nil => simp
    | cons v rest =>
      simp only [Option.map_some, Option.getD_some, List.map_cons, List.sum_cons]
      exact (foldl_combineS_fields rest v).2.1
  · cases hf : (allScriptVals ws).filter (fun s => s.scriptName == k) with
    | nil => simp
    | cons v rest =>
      simp only [Option.map_some, Option.getD_some, List.map_cons, List.sum_cons]
      exact (foldl_combineS_fields rest v).2.2.1
  · cases hf : (allScriptVals ws).filter (fun s => s.scriptName == k) with
    | nil => simp
    | cons v rest =>
      simp only [Option.map_some, Option.getD_some, List.map_cons, List.sum_cons]
      exact (foldl_combineS_fields rest v).2.2.2
  · cases hf : (allGroups ws).filter (fun p => p.1 == k) with
    | nil => simp
    | cons q rest =>
      simp only [Option.map_some, Option.getD_some, List.map_cons, List.sum_cons]
      exact foldl_combineG_count rest q.2

theorem mergeAllR_eq_reverse (base : Result) (ws : List WorkerResult) :
    mergeAllR base ws = mergeAll base ws.reverse := by
  rw [mergeAllR, mergeAll, List.foldl_reverse]

theorem allScriptVals_reverse_perm (ws : List WorkerResult) :
    (allScriptVals ws.reverse).Perm (allScriptVals ws) := by
  rw [allScriptVals, allScriptVals, List.flatMap, List.flatMap, List.map_reverse]
  exact (List.reverse_perm _).flatten

theorem allGroups_reverse_perm (ws : List WorkerResult) :
    (allGroups ws.reverse).Perm (allGroups ws) := by
  rw [allGroups, allGroups, List.flatMap, List.flatMap, List.map_reverse]
  exact (List.reverse_perm _).flatten

/-- **C8.**  `Result.Add` folded over any sequence of worker results sums
`succeeded`, `failed` and `rate` per script (and failure-group counts per
group) over exactly the contributions carrying that script name, and the
fold order is irrelevant: the right-fold merge agrees with the left-fold
merge on every per-script count, rate and failure-group count, and the
merged histograms are equal as multisets of recorded values (what remains
of a histogram once HDR precision forgets insertion order). -/
theorem c8_merge_fold_order (db sc k : String) (ws : List WorkerResult) :
    scriptSucc (mergeAll (newResult db sc) ws) k
      = (((allScriptVals ws).filter (fun s => s.scriptName == k)).map
          (fun s => s.succeeded)).sum ∧
    scriptFail (mergeAll (newResult db sc) ws) k
      = (((allScriptVals ws).filter (fun s => s.scriptName == k)).map
          (fun s => s.failed)).sum ∧
    scriptRate (mergeAll (newResult db sc) ws) k
      = (((allScriptVals ws).filter (fun s => s.scriptName == k)).map
          (fun s => s.rate)).sum ∧
    groupCount (mergeAll (newResult db sc) ws) k
      = (((allGroups ws).filter (fun p => p.1 == k)).map (fun q => q.2.count)).sum ∧
    scriptSucc (mergeAllR (newResult db sc) ws) k
      = scriptSucc (mergeAll (newResult db sc) ws) k ∧
    scriptFail (mergeAllR (newResult db sc) ws) k
      = scriptFail (mergeAll (newResult db sc) ws) k ∧
    scriptRate (mergeAllR (newResult db sc) ws) k
      = scriptRate (mergeAll (newResult db sc) ws) k ∧
    groupCount (mergeAllR (newResult db sc) ws) k
      = groupCount (mergeAll (newResult db sc) ws) k ∧
    scriptLats (mergeAllR (newResult db sc) ws) k
      = scriptLats (mergeAll (newResult db sc) ws) k := by
  obtain ⟨a1, a2, a3, a4, a5⟩ := merge_projections db sc k ws
  obtain ⟨b1, b2, b3, b4, b5⟩ := merge_projections db sc k ws.reverse
  have hps := (allScriptVals_reverse_perm ws).filter (fun s => s.scriptName == k)
  have hpg := (allGroups_reverse_perm ws).filter (fun p => p.1 == k)
  rw [mergeAllR_eq_reverse]
  refine ⟨a1, a2, a3, a5, ?_, ?_, ?_, ?_, ?_⟩
  · rw [b1, a1]
    exact (hps.map (fun s => s.succeeded)).sum_eq
  · rw [b2, a2]
    exact (hps.map (fun s => s.failed)).sum_eq
  · rw [b3, a3]
    exact (hps.map (fun s => s.rate)).sum_eq
  · rw [b5, a5]
    exact (hpg.map (fun q => q.2.count)).sum_eq
  · rw [b4, a4]
    exact (hps.map (fun s => (s.latencies.values : Multiset Int))).sum_eq

/-! ## C9 — the weighted random selector -/

/-- running cumulative sums starting from `acc`: the contents of the
selector\x27s lookup table -/
def prefixSumsFrom (acc : Int) : List Int → List Int
  | [] => []
  | w :: ws => (acc + w) :: prefixSumsFrom (acc + w) ws

def prefixSums (ws : List Int) : List Int := prefixSumsFrom 0 ws

theorem buildWR_closed_aux {α : Type} (items : List (α × Int)) :
    ∀ (w : WeightedRandom α),
      items.foldl (fun w p => w.add p.1 p.2) w =
        { lookupTable := w.lookupTable ++ prefixSumsFrom w.totalWeight (items.map Prod.snd)
          totalWeight := w.totalWeight + (items.map Prod.snd).sum
          entries := w.entries ++ items.map Prod.fst } := by
  induction items with
  | nil => intro w; simp [prefixSumsFrom]
  | cons p items ih =>
    intro w
    rw [List.foldl_cons, ih]
    simp only [WeightedRandom.add, List.map_cons, List.sum_cons, prefixSumsFrom]
    simp [List.append_assoc, add_assoc]

theorem buildWR_closed {α : Type} (items : List (α × Int)) :
    buildWR items =
      { lookupTable := prefixSums (items.map Prod.snd)
        totalWeight := (items.map Prod.snd).sum
        entries := items.map Prod.fst } := by
  rw [buildWR, buildWR_closed_aux items WeightedRandom.empty]
  simp [WeightedRandom.empty, prefixSums]

theorem length_prefixSumsFrom (ws : List Int) :
    ∀ acc, (prefixSumsFrom acc ws).length = ws.length := by
  induction ws with
  | nil => intro acc; rfl
  | cons w ws ih => intro acc; simp [prefixSumsFrom, ih]

/-- the `i`-th lookup-table entry is the sum of the first `i + 1` weights -/
theorem getD_prefixSumsFrom (ws : List Int) :
    ∀ (acc : Int) (i : Nat), i < ws.length →
      (prefixSumsFrom acc ws).getD i 0 = acc + (ws.take (i + 1)).sum := by
  induction ws with
  | nil => intro _ i h; exact absurd h (by simp)
  | cons w ws ih =>
    intro acc i h
    cases i with
    | zero => simp [prefixSumsFrom]
    | succ i =>
      rw [prefixSumsFrom]
      have := ih (acc + w) i (by simpa using h)
      simp only [List.getD_cons_succ, List.take_succ_cons, List.sum_cons]
      rw [this]
      ring

/-- monotone partial sums for a list of nonnegative entries -/
theorem sum_take_mono (ws : List Int) (hws : ∀ x ∈ ws, 0 ≤ x) (i j : Nat) (hij : i ≤ j) :
    (ws.take i).sum ≤ (ws.take j).sum := by
  have hj : ws.take j = ws.take i ++ (ws.drop i).take (j - i) := by
    rw [← List.take_add]
    congr 1
    omega
  rw [hj, List.sum_append]
  have : 0 ≤ ((ws.drop i).take (j - i)).sum := by
    refine List.sum_nonneg ?_
    intro x hx
    exact hws x (List.mem_of_mem_drop (List.mem_of_mem_take hx))
  omega

theorem sum_take_nonneg (ws : List Int) (hws : ∀ x ∈ ws, 0 ≤ x) (i : Nat) :
    0 ≤ (ws.take i).sum := by
  have := sum_take_mono ws hws 0 i (Nat.zero_le i)
  simpa using this

/-- the invariant of `sort.Search`\x27s loop: for a predicate monotone below
`n`, the loop run on `[i, j]` with `j ≤ n` returns the least index at which
the predicate holds (or `j` when it never does). -/
theorem goSearchLoop_spec (pred : Nat → Bool) (n : Nat)
    (hmono : ∀ x y, x ≤ y → y < n → pred x = true → pred y = true) :
    ∀ (k i j : Nat), j - i ≤ k → i ≤ j → j ≤ n →
      i ≤ goSearchLoop pred i j ∧ goSearchLoop pred i j ≤ j ∧
      (goSearchLoop pred i j < j → pred (goSearchLoop pred i j) = true) ∧
      (∀ x, i ≤ x → x < goSearchLoop pred i j → pred x = false) := by
  intro k
  induction k with
  | zero =>
    intro i j hk hij _
    have hje : i = j := by omega
    subst hje
    have heq : goSearchLoop pred i i = i := by
      rw [goSearchLoop, dif_neg (lt_irrefl i)]
    rw [heq]
    exact ⟨le_refl i, le_refl i, fun h => absurd h (lt_irrefl i), fun x h1 h2 => by omega⟩
  | succ k ih =>
    intro i j hk hij hjn
    by_cases hij2 : i < j
    · set m := (i + j) / 2 with hm
      have hmlt : m < j := by omega
      have hmge : i ≤ m := by omega
      have heq : goSearchLoop pred i j
          = if pred m then goSearchLoop pred i m else goSearchLoop pred (m + 1) j := by
        rw [goSearchLoop, dif_pos hij2]
      by_cases hp : pred m
      · rw [heq, if_pos hp]
        obtain ⟨h1, h2, h3, h4⟩ := ih i m (by omega) hmge (by omega)
        refine ⟨h1, by omega, ?_, h4⟩
        intro _
        by_cases hr : goSearchLoop pred i m < m
        · exact h3 hr
        · have hrm : goSearchLoop pred i m = m := by omega
          rw [hrm]
          exact hp
      · rw [heq, if_neg hp]
        obtain ⟨h1, h2, h3, h4⟩ := ih (m + 1) j (by omega) (by omega) hjn
        refine ⟨by omega, h2, h3, ?_⟩
        intro x hx hxlt
        by_cases hxm : x ≤ m
        · cases hpx : pred x with
          | false => rfl
          | true =>
            have := hmono x m hxm (by omega) hpx
            rw [this] at hp
            exact absurd rfl hp
        · exact h4 x (by omega) hxlt
    · have hje : i = j := by omega
      subst hje
      have heq : goSearchLoop pred i i = i := by
        rw [goSearchLoop, dif_neg (lt_irrefl i)]
      rw [heq]
      exact ⟨le_refl i, le_refl i, fun h => absurd h (lt_irrefl i), fun x h1 h2 => by omega⟩

/-- `sort.SearchInts` on a list whose entries are monotone below its
length: in range, satisfied at the result, unsatisfied before it. -/
theorem searchInts_spec (a : List Int) (x : Int)
    (hmono : ∀ p q : Nat, p ≤ q → q < a.length → x ≤ a.getD p 0 → x ≤ a.getD q 0) :
    searchInts a x ≤ a.length ∧
    (searchInts a x < a.length → x ≤ a.getD (searchInts a x) 0) ∧
    (∀ p, p < searchInts a x → ¬ x ≤ a.getD p 0) := by
  have hb : ∀ p q : Nat, p ≤ q → q < a.length →
      decide (x ≤ a.getD p 0) = true → decide (x ≤ a.getD q 0) = true := by
    intro p q hpq hq h
    rw [decide_eq_true_eq] at h ⊢
    exact hmono p q hpq hq h
  obtain ⟨h1, h2, h3, h4⟩ := goSearchLoop_spec (fun i => decide (x ≤ a.getD i 0)) a.length hb
    a.length 0 a.length (by omega) (Nat.zero_le _) (le_refl _)
  refine ⟨h2, ?_, ?_⟩
  · intro hlt
    have := h3 hlt
    rwa [decide_eq_true_eq] at this
  · intro p hp hcon
    have := h4 p (Nat.zero_le p) hp
    simp only [decide_eq_false_iff_not] at this
    exact this hcon

/-- a drawn point in `[1, total]` lands strictly inside the segment of the
returned index: the entry\x27s cumulative range contains the point -/
theorem searchInts_segment (ws : List Int) (hpos : ∀ x ∈ ws, 0 < x) (point : Int)
    (hp1 : 1 ≤ point) (hp2 : point ≤ ws.sum) :
    searchInts (prefixSums ws) point < ws.length ∧
    (ws.take (searchInts (prefixSums ws) point)).sum < point ∧
    point ≤ (ws.take (searchInts (prefixSums ws) point + 1)).sum := by
  have hnn : ∀ x ∈ ws, 0 ≤ x := fun x hx => le_of_lt (hpos x hx)
  have hlen : (prefixSums ws).length = ws.length := length_prefixSumsFrom ws 0
  have hget : ∀ i, i < ws.length → (prefixSums ws).getD i 0 = (ws.take (i + 1)).sum := by
    intro i hi
    have := getD_prefixSumsFrom ws 0 i hi
    simpa [prefixSums] using this
  have hmono : ∀ p q : Nat, p ≤ q → q < (prefixSums ws).length →
      point ≤ (prefixSums ws).getD p 0 → point ≤ (prefixSums ws).getD q 0 := by
    intro p q hpq hq hle
    rw [hlen] at hq
    rw [hget q hq]
    rw [hget p (lt_of_le_of_lt hpq hq)] at hle
    exact le_trans hle (sum_take_mono ws hnn (p + 1) (q + 1) (by omega))
  obtain ⟨s1, s2, s3⟩ := searchInts_spec (prefixSums ws) point hmono
  have hn0 : 0 < ws.length := by
    rcases ws with _ | ⟨w, ws⟩
    · simp at hp2
      omega
    · simp
  have hidx : searchInts (prefixSums ws) point < ws.length := by
    by_contra hcon
    have heqn : searchInts (prefixSums ws) point = ws.length := by
      rw [hlen] at s1
      omega
    have hlast := s3 (ws.length - 1) (by omega)
    rw [hget (ws.length - 1) (by omega)] at hlast
    have htake : ws.take (ws.length - 1 + 1) = ws := by
      have he : ws.length - 1 + 1 = ws.length := by omega
      rw [he, List.take_length]
    rw [htake] at hlast
    exact hlast hp2
  refine ⟨hidx, ?_, ?_⟩
  · cases hcase : searchInts (prefixSums ws) point with
    | zero => simpa using hp1
    | succ i =>
      have hprev := s3 i (by omega)
      rw [hget i (by omega)] at hprev
      omega
  · have hsat := s2 (by rw [hlen]; exact hidx)
    rw [hget _ hidx] at hsat
    exact hsat

/-- the binary search hits index `i` exactly on the points of `i`\x27s
cumulative segment -/
theorem searchInts_eq_iff (ws : List Int) (hpos : ∀ x ∈ ws, 0 < x) (point : Int)
    (hp1 : 1 ≤ point) (hp2 : point ≤ ws.sum) (i : Nat) (hi : i < ws.length) :
    searchInts (prefixSums ws) point = i ↔
      ((ws.take i).sum < point ∧ point ≤ (ws.take (i + 1)).sum) := by
  have hnn : ∀ x ∈ ws, 0 ≤ x := fun x hx => le_of_lt (hpos x hx)
  obtain ⟨hidx, hlo, hhi⟩ := searchInts_segment ws hpos point hp1 hp2
  constructor
  · intro he
    rw [he] at hlo hhi
    exact ⟨hlo, hhi⟩
  · rintro ⟨hl, hr⟩
    by_contra hne
    rcases Nat.lt_or_ge (searchInts (prefixSums ws) point) i with hlt | hge
    · have := sum_take_mono ws hnn (searchInts (prefixSums ws) point + 1) i (by omega)
      omega
    · have hgt : i < searchInts (prefixSums ws) point := by omega
      have := sum_take_mono ws hnn (i + 1) (searchInts (prefixSums ws) point) (by omega)
      omega

/-- an entry of weight `w` is drawn for exactly `w` of the `total` points -/
theorem searchInts_count (ws : List Int) (hpos : ∀ x ∈ ws, 0 < x)
    (i : Nat) (hi : i < ws.length) :
    ((Finset.Icc 1 ws.sum).filter (fun r => searchInts (prefixSums ws) r = i)).card
      = (ws.getD i 0).toNat := by
  have hnn : ∀ x ∈ ws, 0 ≤ x := fun x hx => le_of_lt (hpos x hx)
  have hset : (Finset.Icc 1 ws.sum).filter (fun r => searchInts (prefixSums ws) r = i)
      = Finset.Ioc ((ws.take i).sum) ((ws.take (i + 1)).sum) := by
    ext r
    simp only [Finset.mem_filter, Finset.mem_Icc, Finset.mem_Ioc]
    constructor
    · rintro ⟨⟨hr1, hr2⟩, he⟩
      exact (searchInts_eq_iff ws hpos r hr1 hr2 i hi).mp he
    · rintro ⟨hl, hr⟩
      have h1 : 1 ≤ r := by
        have := sum_take_nonneg ws hnn i
        omega
      have h2 : r ≤ ws.sum := by
        have := sum_take_mono ws hnn (i + 1) ws.length (by omega)
        rw [List.take_length] at this
        omega
      exact ⟨⟨h1, h2⟩, (searchInts_eq_iff ws hpos r h1 h2 i hi).mpr ⟨hl, hr⟩⟩
  rw [hset, Int.card_Ioc, List.sum_take_succ ws i hi, List.getD_eq_getElem ws 0 hi]
  simp [List.get_eq_getElem]

/-- **C9.**  For a selector built by `Add`-ing entries with positive
integer weights (as `NewScripts` does with `int(script.Weight * 10000)`):
the lookup table is the list of cumulative weights, the total is their
sum, and for every drawn point in `[1, totalWeight]` the binary search
returns an in-bounds index (so `w.entries[index]` cannot panic) whose
cumulative segment strictly contains the point; each index `i` is hit by
exactly `weight i` of the `totalWeight` possible points. -/
theorem c9_weighted_draw {α : Type} (items : List (α × Int)) (point : Int)
    (hpos : ∀ p ∈ items, 0 < p.2)
    (hp1 : 1 ≤ point) (hp2 : point ≤ (buildWR items).totalWeight) :
    (buildWR items).lookupTable = prefixSums (items.map Prod.snd) ∧
    (buildWR items).totalWeight = (items.map Prod.snd).sum ∧
    (buildWR items).entries = items.map Prod.fst ∧
    searchInts (buildWR items).lookupTable point < items.length ∧
    ((items.map Prod.snd).take (searchInts (buildWR items).lookupTable point)).sum
      < point ∧
    point ≤ ((items.map Prod.snd).take
      (searchInts (buildWR items).lookupTable point + 1)).sum ∧
    ((buildWR items).draw point).isSome = true ∧
    (buildWR items).draw point
      = (items.map Prod.fst).get? (searchInts (prefixSums (items.map Prod.snd)) point) ∧
    (∀ i, i < items.length →
      ((Finset.Icc 1 (buildWR items).totalWeight).filter
          (fun r => searchInts (buildWR items).lookupTable r = i)).card
        = ((items.map Prod.snd).getD i 0).toNat) := by
  have hws : ∀ x ∈ items.map Prod.snd, 0 < x := by
    intro x hx
    rw [List.mem_map] at hx
    obtain ⟨p, hp, he⟩ := hx
    rw [← he]
    exact hpos p hp
  have hcl := buildWR_closed items
  have hlt : (buildWR items).lookupTable = prefixSums (items.map Prod.snd) := by
    rw [hcl]
  have htw : (buildWR items).totalWeight = (items.map Prod.snd).sum := by
    rw [hcl]
  have hen : (buildWR items).entries = items.map Prod.fst := by
    rw [hcl]
  rw [htw] at hp2
  have hlen : (items.map Prod.snd).length = items.length := List.length_map items Prod.snd
  obtain ⟨hidx, hlo, hhi⟩ := searchInts_segment (items.map Prod.snd) hws point hp1 hp2
  rw [hlen] at hidx
  have hdraw : (buildWR items).draw point
      = (items.map Prod.fst).get? (searchInts (prefixSums (items.map Prod.snd)) point) := by
    rw [WeightedRandom.draw, hen, hlt]
  refine ⟨hlt, htw, hen, ?_, ?_, ?_, ?_, hdraw, ?_⟩
  · rw [hlt]
    exact hidx
  · rw [hlt]
    exact hlo
  · rw [hlt]
    exact hhi
  · rw [hdraw]
    have hfl : (items.map Prod.fst).length = items.length := List.length_map items Prod.fst
    rw [List.get?_eq_get (by rw [hfl]; exact hidx)]
    rfl
  · intro i hi
    rw [htw, hlt]
    exact searchInts_count (items.map Prod.snd) hws i (by rw [hlen]; exact hi)

theorem c9_weighted_draw_witness :
    (∀ p ∈ [("A", (2 : Int)), ("B", 3), ("C", 3)], 0 < p.2) ∧
    (1 : Int) ≤ 4 ∧
    (4 : Int) ≤ (buildWR [("A", (2 : Int)), ("B", 3), ("C", 3)]).totalWeight ∧
    searchInts (buildWR [("A", (2 : Int)), ("B", 3), ("C", 3)]).lookupTable 4 < 3 ∧
    ((buildWR [("A", (2 : Int)), ("B", 3), ("C", 3)]).draw 4).isSome = true := by
  have h := c9_weighted_draw [("A", (2 : Int)), ("B", 3), ("C", 3)] 4
    (by decide) (by decide) (by decide)
  exact ⟨by decide, by decide, by decide, h.2.2.2.1, h.2.2.2.2.2.2.1⟩

/-! ## C10 — an unbound remote parameter -/

/-- **C10 (counterexample).**  An unbound name is benign only on the
*remote* side.  If the command also names an unbound variable as a local
parameter, `varToCypherLiteral(nil)` hits the default case and
`Execute` fails — so "executing the QueryCommand does not fail" is not
true of every command with an unbound variable. -/
theorem c10_counterexample :
    bExecute ⟨"RETURN $x $$y", ["x"], ["y"]⟩ []
      = .error ("don\x27t yet know how to convert $$y to a cypher literal string: "
          ++ "don\x27t know how to convert to cypher literal") := rfl

/-- **C10 (amended).**  If a remote parameter `n` is not defined in the
script context and the local-substitution step succeeds (in particular
whenever `LocalParams` is empty), `Execute` succeeds and the produced
statement binds `n` to `nil` — the Go zero value the map read yields. -/
theorem c10_unbound_remote_nil (c : BQueryCommand) (vars : List (String × Value))
    (n : String) (q : String)
    (hmem : n ∈ c.remoteParams)
    (hnone : lookupAssoc vars n = none)
    (hsub : localSubstResult c vars = .ok q) :
    bExecute c vars
      = .ok ⟨q, c.remoteParams.foldl (fun m k => insertAssoc m k (goMapGet vars k)) []⟩ ∧
    (∀ st : BStatement, bExecute c vars = .ok st →
      lookupAssoc st.params n = some Value.vNil) := by
  have hexec : bExecute c vars
      = .ok ⟨q, c.remoteParams.foldl (fun m k => insertAssoc m k (goMapGet vars k)) []⟩ := by
    show (match localSubstResult c vars with
      | .ok q2 => .ok { query := q2
                        params := c.remoteParams.foldl
                          (fun m k => insertAssoc m k (goMapGet vars k)) [] }
      | .error m => .error m : Except String BStatement) = _
    rw [hsub]
  refine ⟨hexec, ?_⟩
  intro st hst
  rw [hexec] at hst
  simp only [Except.ok.injEq] at hst
  subst hst
  show lookupAssoc (c.remoteParams.foldl (fun m k => insertAssoc m k (goMapGet vars k)) []) n
    = some Value.vNil
  rw [lookupAssoc_foldl_insert (fun k => goMapGet vars k) c.remoteParams [] n, if_pos hmem,
    goMapGet, hnone]
  rfl

theorem c10_unbound_remote_nil_witness :
    ("x" ∈ ["x"]) ∧
    lookupAssoc ([] : List (String × Value)) "x" = none ∧
    localSubstResult ⟨"RETURN $x", ["x"], []⟩ [] = .ok "RETURN $x" ∧
    bExecute ⟨"RETURN $x", ["x"], []⟩ [] = .ok ⟨"RETURN $x", [("x", Value.vNil)]⟩ ∧
    (∀ st : BStatement, bExecute ⟨"RETURN $x", ["x"], []⟩ [] = .ok st →
      lookupAssoc st.params "x" = some Value.vNil) := by
  obtain ⟨h1, h2⟩ := c10_unbound_remote_nil ⟨"RETURN $x", ["x"], []⟩ [] "x" "RETURN $x"
    (by decide) rfl rfl
  exact ⟨by decide, rfl, rfl, h1, h2⟩

end Neobench
